import Mathlib

/-!
Verification development for the django-GDPR anonymization engine
(`gdpr/anonymizers/model_anonymizers.py` and `gdpr/utils.py`).

The Python code is shallowly embedded: Django model instances become `Obj`,
the database (live objects, `AnonymizedData` records, auditlog entries)
becomes `DB`, and the side effects of `ModelAnonymizerBase.update_obj`
(mutation of the store, consumption of `random.choices` randomness,
`warnings.warn` calls) are threaded through an explicit state `St`.
Python exceptions become an `Option Err` component of each result.

External collaborators that are out of scope for the repository
(Django ORM relation descriptors, schema reflection, model properties,
`hashlib.sha256`) are parameters collected in a `World` structure.
-/

/-- A Django model instance: a stable primary key, the model (content type)
name and the scalar field values. -/
structure Obj where
  modelName : String
  pk : Nat
  attrs : List (String × String)
  deriving DecidableEq

/-- Modelled from the spec: the `AnonymizedData` model (`gdpr/models.py` is not
part of `src/`).  Per spec section 3 it is keyed by (entity-type, object-id,
field-name), has `is_active` and an optional expired legal reason; a record is
created active when a field is anonymized. -/
structure AnonymizedData where
  contentType : String
  objectId : String
  field : String
  isActive : Bool
  expiredReason : Option Nat
  deriving DecidableEq

/-- An auditlog entry for an object: content type and object id of the object
it belongs to, plus the recorded `changes` mapping field name to value. -/
structure LogEntry where
  contentType : String
  objectId : String
  changes : List (String × String)
  deriving DecidableEq

/-- The mutable store: live objects, `AnonymizedData` records and the
auditlog. -/
structure DB where
  objects : List Obj
  anonymizedData : List AnonymizedData
  auditlog : List LogEntry
  deriving DecidableEq

/-- Execution state threaded through `update_obj`: the store, the position in
the `random.choices` randomness stream, and the warnings issued so far. -/
structure St where
  db : DB
  ctr : Nat
  warnings : List String
  deriving DecidableEq

/-- Python exceptions raised by the engine. -/
inductive Err where
  /-- Source `ModelAnonymizerBase.IrreversibleAnonymizerException` -/
  | irreversibleAnonymizer
  /-- the `NotImplementedError` raised by `get_encryption_key` when no usable
  base encryption key is available (the spec's ConfigurationError) -/
  | configurationKey
  /-- Python `KeyError` from `self[name]` when a field has no anonymizer -/
  | keyError (name : String)
  deriving DecidableEq

/-- Modelled from the spec: `FieldAnonymizer` (`gdpr/anonymizers/base.py` is
not part of `src/`).  Per spec sections 3 and 4.3 it is a capability with
`get_is_reversible`, and pure transforms `get_value_from_obj` /
`get_value_from_entry` of (object, field name, encryption key, mode). -/
structure FieldAnonymizer where
  getIsReversible : Obj → Bool
  getValueFromObj : Obj → String → String → Bool → String
  getValueFromEntry : Obj → LogEntry → String → String → Bool → String

/-- An entry of the `anonymizers` dict collected by `ModelAnonymizerMeta`:
a `FieldAnonymizer` attribute, a `RelationAnonymizer` attribute (carrying its
`get_related_objects` resolver), or some other `BaseAnonymizer` that is
neither (it then matches no `isinstance` test in `update_related_fields`). -/
inductive AnonymizerEntry where
  | fieldAnon (fa : FieldAnonymizer)
  | relationAnon (getRelatedObjects : Obj → List Obj)
  | otherAnon

/-- The per-model-anonymizer configuration assembled by `ModelAnonymizerMeta`:
the model, the `anonymizers` dict, and the `Meta` flags. -/
structure AnonCfg where
  modelName : String
  anonymizers : List (String × AnonymizerEntry)
  reversibleAnonymization : Bool
  deleteAuditlogFlag : Bool
  anonymizeAuditlogFlag : Bool

/-- Source `self.fields[name]`: the metaclass stores exactly the `FieldAnonymizer`
valued entries of `anonymizers` in `fields`. -/
def AnonCfg.findFieldAnonymizer (cfg : AnonCfg) (name : String) :
    Option FieldAnonymizer :=
  match cfg.anonymizers.lookup name with
  | some (AnonymizerEntry.fieldAnon fa) => some fa
  | _ => none

/-- Source `self.anonymizers.get(name)` followed by
`isinstance(anonymizer, RelationAnonymizer)`. -/
def AnonCfg.findRelationAnonymizer (cfg : AnonCfg) (name : String) :
    Option (Obj → List Obj) :=
  match cfg.anonymizers.lookup name with
  | some (AnonymizerEntry.relationAnon r) => some r
  | _ => none

/-- Modelled from the spec: the parsed `Fields` tree (`gdpr/fields.py` is not
part of `src/`).  Per spec sections 3 and 4.2 it holds the local field names,
the related entries each with a nested `Fields`, and a pointer to the
applicable anonymizer (`related_fields.anonymizer` in the source). -/
inductive Fields where
  | mk (anonymizer : AnonCfg) (localFields : List String)
      (relatedFields : List (String × Fields))

def Fields.anonymizer : Fields → AnonCfg
  | Fields.mk a _ _ => a

def Fields.localFields : Fields → List String
  | Fields.mk _ l _ => l

def Fields.relatedFields : Fields → List (String × Fields)
  | Fields.mk _ _ r => r

/-- Cardinality flags of a Django relation field
(`one_to_many` / `many_to_many` / `many_to_one` / `one_to_one`). -/
inductive Cardinality where
  | oneToMany
  | manyToMany
  | manyToOne
  | oneToOne
  | other
  deriving DecidableEq

/-- Result of `getattr(obj, field_name, None)` for a plain attribute/property:
`noneValue b` is a `None` value where `b` records `hasattr(obj.__class__,
field_name)`, otherwise a single model instance, a queryset, or some other
value. -/
inductive PropAttrValue where
  | noneValue (classHasAttr : Bool)
  | singleModel (o : Obj)
  | queryset (objs : List Obj)
  | otherValue

/-- The external collaborators: `hashlib.sha256(...).hexdigest()` as an opaque
string function, the process-wide secret (`settings.GDPR_KEY` falling back to
`settings.SECRET_KEY`), the `random.choices` index stream, Django schema
reflection (`get_field_or_none`), relation accessors and plain attribute
access. -/
structure World where
  sha256hex : String → String
  secretKey : String
  randStream : Nat → Nat
  getFieldOrNone : String → String → Option Cardinality
  relatedAll : Obj → String → List Obj
  relatedOne : Obj → String → Option Obj
  propAttr : Obj → String → PropAttrValue

/-- Python truthiness of an optional string (`if base_encryption_key:`):
`None` and the empty string are falsy. -/
def strTruthy : Option String → Bool
  | none => false
  | some s => !(s == "")

/-- Source `string.digits + string.ascii_letters`. -/
def randomAlphabet : List Char :=
  String.toList "0123456789abcdefghijklmnopqrstuvwxyzABCDEFGHIJKLMNOPQRSTUVWXYZ"

theorem randomAlphabet_length : randomAlphabet.length = 62 := by decide

/-- One draw of `random.choices`: the stream value indexes the alphabet. -/
def randChar (stream : Nat → Nat) (c : Nat) : Char :=
  randomAlphabet.get ⟨stream c % 62, by
    rw [randomAlphabet_length]; exact Nat.mod_lt _ (by decide)⟩

/-- Source `random.choices(string.digits + string.ascii_letters, k=k)` starting at
stream position `c`. -/
def randomChoicesList (stream : Nat → Nat) : Nat → Nat → List Char
  | 0, _ => []
  | k + 1, c => randChar stream c :: randomChoicesList stream k (c + 1)

/-- Source join `''.join(random.choices(string.digits + string.ascii_letters, k=k))`. -/
def randomChoices (stream : Nat → Nat) (k : Nat) (c : Nat) : String :=
  String.mk (randomChoicesList stream k c)

/-- Source `ModelAnonymizerBase.get_encryption_key`: a fresh random alphanumeric
string of length 128 for an irreversible anonymizer; otherwise the instance's
`_base_encryption_key` if truthy, else the `NotImplementedError`.  `inst` is
`self._base_encryption_key`; `c` is the randomness stream position. -/
def getEncryptionKey (w : World) (cfg : AnonCfg) (inst : Option String)
    (c : Nat) : Except Err String × Nat :=
  if !cfg.reversibleAnonymization then
    (Except.ok (randomChoices w.randStream 128 c), c + 128)
  else if strTruthy inst then
    (Except.ok (inst.getD ""), c)
  else
    (Except.error Err.configurationKey, c)

/-- The string fed to SHA-256 by `ModelAnonymizerBase._get_encryption_key`:
`f'{obj.pk}::{base}::{secret}::{field_name}'`. -/
def encryptionKeyPreimage (pk : Nat) (base : String) (secret : String)
    (name : String) : String :=
  toString pk ++ "::" ++ base ++ "::" ++ secret ++ "::" ++ name

/-- Source `ModelAnonymizerBase._get_encryption_key`: SHA-256 of the delimited
concatenation of primary key, base secret, process secret and field name. -/
def getEncryptionKeyHash (w : World) (cfg : AnonCfg) (inst : Option String)
    (obj : Obj) (name : String) (c : Nat) : Except Err String × Nat :=
  match getEncryptionKey w cfg inst c with
  | (Except.error e, c1) => (Except.error e, c1)
  | (Except.ok base, c1) =>
      (Except.ok (w.sha256hex
        (toString obj.pk ++ "::" ++ base ++ "::" ++ w.secretKey ++ "::"
          ++ name)), c1)

/-- Source `ModelAnonymizerBase.is_field_anonymized`: does an active `AnonymizedData`
record exist for (`self.content_type`, `str(obj.pk)`, `name`)? -/
def isFieldAnonymized (db : DB) (cfg : AnonCfg) (obj : Obj) (name : String) :
    Bool :=
  db.anonymizedData.any fun r =>
    r.field == name && r.isActive && r.contentType == cfg.modelName
      && r.objectId == toString obj.pk

/-- The deanonymization selection
`[i for i in parsed_fields.local_fields
   if self.is_field_anonymized(obj, i) and self[i].get_is_reversible(obj)]`.
`self[i]` raises `KeyError` when field `i` has no anonymizer; the conjunction
short-circuits, so the lookup only happens for anonymized fields. -/
def selectDeanonFields (cfg : AnonCfg) (db : DB) (obj : Obj) :
    List String → Except Err (List String)
  | [] => Except.ok []
  | i :: rest =>
    if isFieldAnonymized db cfg obj i then
      match cfg.findFieldAnonymizer i with
      | none => Except.error (Err.keyError i)
      | some fa =>
        match selectDeanonFields cfg db obj rest with
        | Except.error e => Except.error e
        | Except.ok l =>
          Except.ok (if fa.getIsReversible obj then i :: l else l)
    else
      selectDeanonFields cfg db obj rest

/-- The `update_dict` comprehension:
`{name: self.get_value_from_obj(self[name], obj, name, anonymization)
  for name in raw_local_fields}`.
Each entry looks up `self[name]` (possible `KeyError`) and derives the
per-field key (possible configuration error, randomness consumption). -/
def buildUpdateDict (w : World) (cfg : AnonCfg) (inst : Option String)
    (obj : Obj) (anonymization : Bool) :
    List String → Nat → Except Err (List (String × String)) × Nat
  | [], c => (Except.ok [], c)
  | n :: rest, c =>
    match cfg.findFieldAnonymizer n with
    | none => (Except.error (Err.keyError n), c)
    | some fa =>
      match getEncryptionKeyHash w cfg inst obj n c with
      | (Except.error e, c1) => (Except.error e, c1)
      | (Except.ok key, c1) =>
        let v := fa.getValueFromObj obj n key anonymization
        match buildUpdateDict w cfg inst obj anonymization rest c1 with
        | (Except.error e, c2) => (Except.error e, c2)
        | (Except.ok d, c2) => (Except.ok ((n, v) :: d), c2)

/-- Source `setattr(obj, field_name, value)` on the scalar attributes. -/
def Obj.setAttr (o : Obj) (name value : String) : Obj :=
  { o with attrs :=
      if o.attrs.any (fun p => p.1 == name) then
        o.attrs.map fun p => if p.1 == name then (p.1, value) else p
      else
        o.attrs ++ [(name, value)] }

/-- The `setattr` loop of `_perform_update`. -/
def setAttrList (o : Obj) (upd : List (String × String)) : Obj :=
  upd.foldl (fun acc p => acc.setAttr p.1 p.2) o

/-- Source `obj.save()`: replace the stored row with the in-memory instance (the
write bypasses auditlog recording via `disable_auditlog`, so no log entry is
produced). -/
def DB.saveObj (db : DB) (o : Obj) : DB :=
  { db with objects :=
      if db.objects.any (fun x => x.modelName == o.modelName && x.pk == o.pk)
      then
        db.objects.map fun x =>
          if x.modelName == o.modelName && x.pk == o.pk then o else x
      else
        db.objects ++ [o] }

/-- Source `ModelAnonymizerBase.update_field_as_anonymized`: on anonymization create
an `AnonymizedData` record for the object (active, with the legal reason —
the active default is modelled from the spec, `gdpr/models.py` being outside
`src/`); on deanonymization delete the matching active records filtered by
`self.content_type`. -/
def updateFieldAsAnonymized (cfg : AnonCfg) (obj : Obj) (name : String)
    (legal : Option Nat) (anonymization : Bool) (db : DB) : DB :=
  if anonymization then
    { db with anonymizedData := db.anonymizedData ++
        [{ contentType := obj.modelName, objectId := toString obj.pk,
           field := name, isActive := true, expiredReason := legal }] }
  else
    { db with anonymizedData := db.anonymizedData.filter fun r =>
        !(r.field == name && r.isActive && r.contentType == cfg.modelName
          && r.objectId == toString obj.pk) }

/-- Source `ModelAnonymizerBase._perform_update` (via `perform_update`): apply the
batch with `setattr`, save once, then mark each written field.  Returns the
mutated instance together with the new store. -/
def performUpdate (cfg : AnonCfg) (obj : Obj) (upd : List (String × String))
    (legal : Option Nat) (anonymization : Bool) (db : DB) : Obj × DB :=
  let obj2 := setAttrList obj upd
  let db1 := db.saveObj obj2
  (obj2, upd.foldl
    (fun d p => updateFieldAsAnonymized cfg obj2 p.1 legal anonymization d)
    db1)

/-- Source `LogEntry.objects.get_for_object(obj)` membership test. -/
def LogEntry.isFor (e : LogEntry) (obj : Obj) : Bool :=
  e.contentType == obj.modelName && e.objectId == toString obj.pk

/-- Source `ModelAnonymizerBase.delete_auditlog`: when anonymizing, delete all
auditlog entries of the object. -/
def deleteAuditlog (obj : Obj) (anonymization : Bool) (s : St) : St :=
  if anonymization then
    { s with db := { s.db with
        auditlog := s.db.auditlog.filter fun e => !(e.isFor obj) } }
  else s

/-- Assignment `entry.changes[name] = value`. -/
def setChange (changes : List (String × String)) (name value : String) :
    List (String × String) :=
  changes.map fun p => if p.1 == name then (p.1, value) else p

/-- The inner loop of `ModelAnonymizerBase.anonymize_auditlog` over one entry:
for each field name present in `entry.changes`, rewrite the recorded value
with `get_value_from_entry` (which derives the per-field key). -/
def anonymizeEntryChanges (w : World) (cfg : AnonCfg) (inst : Option String)
    (obj : Obj) (anonymization : Bool) :
    List String → LogEntry → Nat → Except Err LogEntry × Nat
  | [], e, c => (Except.ok e, c)
  | n :: rest, e, c =>
    if e.changes.any (fun p => p.1 == n) then
      match cfg.findFieldAnonymizer n with
      | none => (Except.error (Err.keyError n), c)
      | some fa =>
        match getEncryptionKeyHash w cfg inst obj n c with
        | (Except.error err, c1) => (Except.error err, c1)
        | (Except.ok key, c1) =>
          let v := fa.getValueFromEntry obj e n key anonymization
          anonymizeEntryChanges w cfg inst obj anonymization rest
            { e with changes := setChange e.changes n v } c1
    else
      anonymizeEntryChanges w cfg inst obj anonymization rest e c

/-- The outer loop of `anonymize_auditlog` over the auditlog: entries of the
object are rewritten and saved one by one; on an exception the entries
already saved keep their new values, the current one keeps its old stored
value, and the remaining ones are untouched. -/
def anonymizeAuditlogGo (w : World) (cfg : AnonCfg) (inst : Option String)
    (obj : Obj) (names : List String) (anonymization : Bool) :
    List LogEntry → Nat → List LogEntry × Nat × Option Err
  | [], c => ([], c, none)
  | e :: rest, c =>
    if e.isFor obj then
      match anonymizeEntryChanges w cfg inst obj anonymization names e c with
      | (Except.error err, c1) => (e :: rest, c1, some err)
      | (Except.ok e2, c1) =>
        let r := anonymizeAuditlogGo w cfg inst obj names anonymization rest c1
        (e2 :: r.1, r.2.1, r.2.2)
    else
      let r := anonymizeAuditlogGo w cfg inst obj names anonymization rest c
      (e :: r.1, r.2.1, r.2.2)

/-- Source `ModelAnonymizerBase.anonymize_auditlog`. -/
def anonymizeAuditlog (w : World) (cfg : AnonCfg) (inst : Option String)
    (obj : Obj) (names : List String) (anonymization : Bool) (s : St) :
    St × Option Err :=
  let r := anonymizeAuditlogGo w cfg inst obj names anonymization
    s.db.auditlog s.ctr
  ({ s with db := { s.db with auditlog := r.1 }, ctr := r.2.1 }, r.2.2)

/-- The `warnings.warn` message of the unreachable-field branches. -/
def unreachableFieldWarning (name : String) (obj : Obj) : String :=
  "Model anonymization discovered unreachable field " ++ name ++ " on model "
    ++ obj.modelName ++ " on obj with pk " ++ toString obj.pk

def addWarning (name : String) (obj : Obj) (s : St) : St :=
  { s with warnings := s.warnings ++ [unreachableFieldWarning name obj] }

/-- The result of `update_obj` on one anonymizer instance: the instance's
`_base_encryption_key` after the call, the final state, and the exception
that propagated, if any. -/
structure UpdRes where
  storedKey : Option String
  st : St
  err : Option Err

mutual

/-- Source `ModelAnonymizerBase.update_obj`, over an already-parsed `Fields` value
(`Fields(fields, obj.__class__)` normalization lives in `gdpr/fields.py`,
outside `src/`; `isinstance(fields, Fields)` inputs pass through unchanged).
`inst` is the instance's `_base_encryption_key` before the call. -/
def updateObj (w : World) (cfg : AnonCfg) (inst : Option String) (obj : Obj)
    (legal : Option Nat) (fs : Fields) (bek : Option String)
    (anonymization : Bool) (s : St) : UpdRes :=
  if !anonymization && !cfg.reversibleAnonymization then
    { storedKey := inst, st := s, err := some Err.irreversibleAnonymizer }
  else
    let inst1 := if strTruthy bek then bek else inst
    match fs with
    | Fields.mk _ localFields relatedFields =>
      match
        (if anonymization then
          Except.ok (localFields.filter fun i =>
            !(isFieldAnonymized s.db cfg obj i))
        else
          selectDeanonFields cfg s.db obj localFields) with
      | Except.error e => { storedKey := inst1, st := s, err := some e }
      | Except.ok rawLocalFields =>
        if rawLocalFields.isEmpty then
          let r := updateRelatedFields w cfg inst1 obj legal relatedFields
            anonymization s
          { storedKey := inst1, st := r.1, err := r.2 }
        else
          match buildUpdateDict w cfg inst1 obj anonymization rawLocalFields
            s.ctr with
          | (Except.error e, c1) =>
            { storedKey := inst1, st := { s with ctr := c1 }, err := some e }
          | (Except.ok updateDict, c1) =>
            let s1 : St := { s with ctr := c1 }
            let audit : St × Option Err :=
              if cfg.deleteAuditlogFlag then
                (deleteAuditlog obj anonymization s1, none)
              else if cfg.anonymizeAuditlogFlag then
                anonymizeAuditlog w cfg inst1 obj rawLocalFields anonymization
                  s1
              else (s1, none)
            match audit.2 with
            | some e => { storedKey := inst1, st := audit.1, err := some e }
            | none =>
              let pu := performUpdate cfg obj updateDict legal anonymization
                audit.1.db
              let r := updateRelatedFields w cfg inst1 pu.1 legal
                relatedFields anonymization { audit.1 with db := pu.2 }
              { storedKey := inst1, st := r.1, err := r.2 }
  termination_by (sizeOf fs, 0, 0)

/-- The loop of `ModelAnonymizerBase.update_related_fields` over
`parsed_fields.related_fields.items()`; an exception aborts the remaining
entries. -/
def updateRelatedFields (w : World) (cfg : AnonCfg) (inst : Option String)
    (obj : Obj) (legal : Option Nat)
    (entries : List (String × Fields)) (anonymization : Bool) (s : St) :
    St × Option Err :=
  match entries with
  | [] => (s, none)
  | (name, child) :: rest =>
    let r := updateRelatedField w cfg inst obj legal name child anonymization
      s
    match r.2 with
    | some e => (r.1, some e)
    | none =>
      updateRelatedFields w cfg inst obj legal rest anonymization r.1
  termination_by (sizeOf entries, 0, 0)

/-- One iteration of the `update_related_fields` loop: resolve via a declared
`RelationAnonymizer`, else via the schema field (`get_field_or_none`), else
as a plain attribute/property. -/
def updateRelatedField (w : World) (cfg : AnonCfg) (inst : Option String)
    (obj : Obj) (legal : Option Nat) (name : String) (child : Fields)
    (anonymization : Bool) (s : St) : St × Option Err :=
  match cfg.findRelationAnonymizer name with
  | some getRelatedObjects =>
    updateRelatedAnonymizerFields w cfg inst obj legal name getRelatedObjects
      child anonymization s
  | none =>
    match w.getFieldOrNone cfg.modelName name with
    | some card =>
      updateRelatedModelFields w cfg inst obj legal name card child
        anonymization s
    | none =>
      updateRelatedModelPropertyFields w cfg inst obj legal name child
        anonymization s
  termination_by (sizeOf child, 3, 0)

/-- Source `ModelAnonymizerBase.update_related_anonymizer_fields`: iterate
`anonymizer.get_related_objects(obj)`. -/
def updateRelatedAnonymizerFields (w : World) (cfg : AnonCfg)
    (inst : Option String) (obj : Obj) (legal : Option Nat) (name : String)
    (getRelatedObjects : Obj → List Obj) (child : Fields)
    (anonymization : Bool) (s : St) : St × Option Err :=
  updateTargets w cfg inst obj legal name child (getRelatedObjects obj)
    anonymization s
  termination_by (sizeOf child, 2, 0)

/-- Source `ModelAnonymizerBase.update_related_model_fields`: one-to-many and
many-to-many relations iterate `related_attribute.all()`; many-to-one and
one-to-one relations process the single related object when present;
anything else warns and is skipped. -/
def updateRelatedModelFields (w : World) (cfg : AnonCfg)
    (inst : Option String) (obj : Obj) (legal : Option Nat) (name : String)
    (card : Cardinality) (child : Fields) (anonymization : Bool) (s : St) :
    St × Option Err :=
  match card with
  | Cardinality.oneToMany =>
    updateTargets w cfg inst obj legal name child (w.relatedAll obj name)
      anonymization s
  | Cardinality.manyToMany =>
    updateTargets w cfg inst obj legal name child (w.relatedAll obj name)
      anonymization s
  | Cardinality.manyToOne =>
    match w.relatedOne obj name with
    | some o =>
      updateTargets w cfg inst obj legal name child [o] anonymization s
    | none => (s, none)
  | Cardinality.oneToOne =>
    match w.relatedOne obj name with
    | some o =>
      updateTargets w cfg inst obj legal name child [o] anonymization s
    | none => (s, none)
  | Cardinality.other => (addWarning name obj s, none)
  termination_by (sizeOf child, 2, 0)

/-- Source `ModelAnonymizerBase.update_related_model_property_fields`: a declared
property whose value is `None` is silently skipped; a single model instance
or a queryset is processed; anything else warns and is skipped. -/
def updateRelatedModelPropertyFields (w : World) (cfg : AnonCfg)
    (inst : Option String) (obj : Obj) (legal : Option Nat) (name : String)
    (child : Fields) (anonymization : Bool) (s : St) : St × Option Err :=
  match w.propAttr obj name with
  | PropAttrValue.noneValue true => (s, none)
  | PropAttrValue.noneValue false => (addWarning name obj s, none)
  | PropAttrValue.singleModel o =>
    updateTargets w cfg inst obj legal name child [o] anonymization s
  | PropAttrValue.queryset objs =>
    updateTargets w cfg inst obj legal name child objs anonymization s
  | PropAttrValue.otherValue => (addWarning name obj s, none)
  termination_by (sizeOf child, 2, 0)

/-- The per-related-object loop shared by the three branches above: each
iteration derives `self._get_encryption_key(obj, field_name)` from the parent
object and parent field name and calls `related_fields.anonymizer.update_obj`
on the related object with that key (the child instance starts without a base
encryption key of its own). -/
def updateTargets (w : World) (cfg : AnonCfg) (inst : Option String)
    (obj : Obj) (legal : Option Nat) (name : String) (child : Fields)
    (objs : List Obj) (anonymization : Bool) (s : St) : St × Option Err :=
  match objs with
  | [] => (s, none)
  | o :: rest =>
    match getEncryptionKeyHash w cfg inst obj name s.ctr with
    | (Except.error e, c1) => ({ s with ctr := c1 }, some e)
    | (Except.ok key, c1) =>
      let r := updateObj w child.anonymizer none o legal child (some key)
        anonymization { s with ctr := c1 }
      match r.err with
      | some e => (r.st, some e)
      | none =>
        updateTargets w cfg inst obj legal name child rest anonymization r.st
  termination_by (sizeOf child, 1, objs.length)

end

/-- Result of `DeleteModelAnonymizer.update_obj`: besides the base result,
the final state of the caller-supplied `Fields` object (the `__SELF__`
stripping branch reassigns `parsed_fields.local_fields` on that very
object). -/
structure DelRes where
  res : UpdRes
  fieldsAfter : Fields

/-- Source `obj.__class__.objects.filter(pk=obj.pk).delete()` (children configured
with cascade semantics are handled by the store and are outside the model). -/
def deleteObjFromDB (db : DB) (obj : Obj) : DB :=
  { db with objects := db.objects.filter fun o =>
      !(o.modelName == obj.modelName && o.pk == obj.pk) }

/-- Source `DeleteModelAnonymizer.DELETE_FIELD_NAME`. -/
def DELETE_FIELD_NAME : String := "__SELF__"

/-- Source `DeleteModelAnonymizer.update_obj` over an already-parsed `Fields` value.
With `__SELF__` among the local fields and `anonymization=True` it first
processes the related fields, then deletes the object, then purges the
auditlog when so configured; with `anonymization=False` it strips `__SELF__`
from the caller's `Fields` (in place) and delegates to the base engine. -/
def deleteUpdateObj (w : World) (cfg : AnonCfg) (inst : Option String)
    (obj : Obj) (legal : Option Nat) (fs : Fields) (bek : Option String)
    (anonymization : Bool) (s : St) : DelRes :=
  if fs.localFields.contains DELETE_FIELD_NAME && anonymization then
    let r := updateRelatedFields w cfg inst obj legal fs.relatedFields
      anonymization s
    match r.2 with
    | some e =>
      { res := { storedKey := inst, st := r.1, err := some e },
        fieldsAfter := fs }
    | none =>
      let s1 : St := { r.1 with db := deleteObjFromDB r.1.db obj }
      let s2 := if cfg.deleteAuditlogFlag then deleteAuditlog obj anonymization
        s1 else s1
      { res := { storedKey := inst, st := s2, err := none },
        fieldsAfter := fs }
  else if fs.localFields.contains DELETE_FIELD_NAME then
    let fs2 := Fields.mk fs.anonymizer
      (fs.localFields.filter fun i => !(i == DELETE_FIELD_NAME))
      fs.relatedFields
    { res := updateObj w cfg inst obj legal fs2 bek anonymization s,
      fieldsAfter := fs2 }
  else
    { res := updateObj w cfg inst obj legal fs bek anonymization s,
      fieldsAfter := fs }

/-- One batch of the non-delete mode of `chunked_queryset_iterator`: the full
ordered pk list, filtered by `pk__gt=last_pk` only when `last_pk` is truthy
(`if last_pk:` — `None` and `0` are both falsy), then sliced to
`chunk_size`. -/
def chunkedBatch (pks : List Nat) (chunkSize : Nat) (lastPk : Option Nat) :
    List Nat :=
  let filtered :=
    match lastPk with
    | some lp => if lp ≠ 0 then pks.filter (fun p => lp < p) else pks
    | none => pks
  filtered.take chunkSize

/-- The `while queryset.exists():` loop of `chunked_queryset_iterator`
(non-delete mode), yielding batches.  The queryset itself never shrinks, so
the source loop only stops by raising on the empty batch
(`batch_queryset[batch_queryset.count() - 1]`); `fuel` bounds the prefix of
the yield sequence that we observe (the loop does not terminate when a batch
maximum has primary key 0). -/
def chunkedLoop (pks : List Nat) (chunkSize : Nat) :
    Option Nat → Nat → List (List Nat)
  | _, 0 => []
  | lastPk, fuel + 1 =>
    if pks.isEmpty then []
    else
      let batch := chunkedBatch pks chunkSize lastPk
      match batch.getLast? with
      | none => []
      | some last => batch :: chunkedLoop pks chunkSize (some last) fuel

/-- Source `chunked_queryset_iterator(queryset, chunk_size)` in non-delete mode, on a
queryset represented by its strictly ascending pk list (`order_by("pk")`).
The fuel `pks.length + 1` covers every yield the well-behaved loop performs
before its terminal empty-batch failure. -/
def chunkedQuerysetIterator (pks : List Nat) (chunkSize : Nat) :
    List (List Nat) :=
  chunkedLoop pks chunkSize none (pks.length + 1)

/-- Spec-side description of how one related entry is resolved (spec section
4.5 step 7 / section 9): a definite list of related objects to process, a
silent skip, or a warn-and-skip. -/
inductive SpecResolution where
  | processList (objs : List Obj)
  | silentSkip
  | warnSkip

/-- Comparison definition for the refinement claim, following the spec's
words: try (a) a declared `RelationAnonymizer`, (b) a schema relation
descriptor (one-to-many / many-to-many iterate all related objects,
many-to-one / one-to-one the single related object if present), (c) a plain
attribute/property (single entity, collection, silently skipped `None`
value of a declared attribute, otherwise warn), in that fixed order. -/
def specResolveRelated (w : World) (cfg : AnonCfg) (obj : Obj)
    (name : String) : SpecResolution :=
  match cfg.findRelationAnonymizer name with
  | some getRelatedObjects => SpecResolution.processList (getRelatedObjects obj)
  | none =>
    match w.getFieldOrNone cfg.modelName name with
    | some Cardinality.oneToMany =>
      SpecResolution.processList (w.relatedAll obj name)
    | some Cardinality.manyToMany =>
      SpecResolution.processList (w.relatedAll obj name)
    | some Cardinality.manyToOne =>
      match w.relatedOne obj name with
      | some o => SpecResolution.processList [o]
      | none => SpecResolution.silentSkip
    | some Cardinality.oneToOne =>
      match w.relatedOne obj name with
      | some o => SpecResolution.processList [o]
      | none => SpecResolution.silentSkip
    | some Cardinality.other => SpecResolution.warnSkip
    | none =>
      match w.propAttr obj name with
      | PropAttrValue.noneValue true => SpecResolution.silentSkip
      | PropAttrValue.noneValue false => SpecResolution.warnSkip
      | PropAttrValue.singleModel o => SpecResolution.processList [o]
      | PropAttrValue.queryset objs => SpecResolution.processList objs
      | PropAttrValue.otherValue => SpecResolution.warnSkip

/-- Spec-side processing of a resolved entry: process each object of a
definite list in order (through the shared per-object loop, which passes the
parent-derived key), do nothing on a silent skip, warn on a warn-skip. -/
def specProcessResolution (w : World) (cfg : AnonCfg) (inst : Option String)
    (obj : Obj) (legal : Option Nat) (name : String) (child : Fields)
    (anonymization : Bool) (s : St) : SpecResolution → St × Option Err
  | SpecResolution.processList objs =>
    updateTargets w cfg inst obj legal name child objs anonymization s
  | SpecResolution.silentSkip => (s, none)
  | SpecResolution.warnSkip => (addWarning name obj s, none)

/-! Concrete test fixtures used by witnesses and counterexamples. -/

def faTest : FieldAnonymizer where
  getIsReversible := fun _ => true
  getValueFromObj := fun _ n k a => (if a then "anon:" else "plain:") ++ n ++ ":" ++ k
  getValueFromEntry := fun _ _ n k a =>
    (if a then "eanon:" else "eplain:") ++ n ++ ":" ++ k

def cfgRev : AnonCfg where
  modelName := "Customer"
  anonymizers := [("email", AnonymizerEntry.fieldAnon faTest),
    ("phone", AnonymizerEntry.fieldAnon faTest)]
  reversibleAnonymization := true
  deleteAuditlogFlag := false
  anonymizeAuditlogFlag := false

def cfgIrrev : AnonCfg := { cfgRev with reversibleAnonymization := false }

def objTest : Obj where
  modelName := "Customer"
  pk := 7
  attrs := [("email", "a@example.com"), ("phone", "777")]

def wTest : World where
  sha256hex := id
  secretKey := "SECRET"
  randStream := id
  getFieldOrNone := fun _ _ => none
  relatedAll := fun _ _ => []
  relatedOne := fun _ _ => none
  propAttr := fun _ _ => PropAttrValue.noneValue true

def dbTest : DB where
  objects := [objTest]
  anonymizedData := []
  auditlog := []

def stTest : St where
  db := dbTest
  ctr := 0
  warnings := []

def fsEmptyTest : Fields := Fields.mk cfgRev [] []

def fsSelfTest : Fields := Fields.mk cfgRev ["__SELF__"] []

def dbAnonTest : DB :=
  { dbTest with anonymizedData :=
      [{ contentType := "Customer", objectId := "7", field := "email",
         isActive := true, expiredReason := some 1 }] }

def stAnonTest : St := { stTest with db := dbAnonTest }

/-! Helper lemmas. -/

/-- The irreversible-deanonymization guard fires before anything else. -/
theorem updateObj_guard (w : World) (cfg : AnonCfg) (inst : Option String)
    (obj : Obj) (legal : Option Nat) (fs : Fields) (bek : Option String)
    (s : St) (hrev : cfg.reversibleAnonymization = false) :
    updateObj w cfg inst obj legal fs bek false s =
      { storedKey := inst, st := s, err := some Err.irreversibleAnonymizer } := by
  rw [updateObj]
  simp [hrev]

/-- When the guard does not fire, the stored key after `update_obj` is the
truthy-filtered passed key, falling back to the previous instance key
(lines 347-348 of `model_anonymizers.py`). -/
theorem updateObj_storedKey (w : World) (cfg : AnonCfg) (inst : Option String)
    (obj : Obj) (legal : Option Nat) (fs : Fields) (bek : Option String)
    (anonymization : Bool) (s : St)
    (h : (!anonymization && !cfg.reversibleAnonymization) = false) :
    (updateObj w cfg inst obj legal fs bek anonymization s).storedKey =
      if strTruthy bek then bek else inst := by
  rw [updateObj]
  simp only [h, Bool.false_eq_true, if_false]
  cases fs with
  | mk a l r =>
    simp only []
    split
    next => rfl
    next =>
      split
      next => rfl
      next =>
        split
        next => rfl
        next =>
          split
          next => rfl
          next => rfl

/-- Claim C1: calling `update_obj` with `anonymization=False` on an anonymizer
whose type is marked non-reversible fails with the irreversible-anonymizer
error as its first step, and performs no mutation: the state (objects,
`AnonymizedData` records, auditlog, randomness, warnings) and the instance
key are returned unchanged; the `DeleteModelAnonymizer` override reaches the
same guard through the base engine with the store equally untouched. -/
theorem c1_irreversible_guard_no_mutation (w : World) (cfg : AnonCfg)
    (inst : Option String) (obj : Obj) (legal : Option Nat) (fs : Fields)
    (bek : Option String) (s : St)
    (hrev : cfg.reversibleAnonymization = false) :
    updateObj w cfg inst obj legal fs bek false s =
      { storedKey := inst, st := s, err := some Err.irreversibleAnonymizer } ∧
    (deleteUpdateObj w cfg inst obj legal fs bek false s).res =
      { storedKey := inst, st := s, err := some Err.irreversibleAnonymizer } := by
  refine ⟨updateObj_guard w cfg inst obj legal fs bek s hrev, ?_⟩
  unfold deleteUpdateObj
  simp only [Bool.and_false, Bool.false_eq_true, if_false]
  split
  · exact updateObj_guard w cfg inst obj legal _ bek s hrev
  · exact updateObj_guard w cfg inst obj legal fs bek s hrev

theorem c1_witness :
    cfgIrrev.reversibleAnonymization = false ∧
    updateObj wTest cfgIrrev none objTest none fsEmptyTest none false stTest =
      { storedKey := none, st := stTest,
        err := some Err.irreversibleAnonymizer } :=
  ⟨rfl, (c1_irreversible_guard_no_mutation wTest cfgIrrev none objTest none
    fsEmptyTest none stTest rfl).1⟩

/-- Claim C10 (amended): a call to `update_obj` whose `base_encryption_key` is
truthy — non-`None` and non-empty — stores that key on the anonymizer
instance, where it persists after the call returns; a later key derivation on
the same instance that omits the key then reuses the stored key instead of
failing with the configuration error.  (An empty supplied string is falsy in
Python and is not stored.) -/
theorem c10_base_key_persists (w : World) (cfg : AnonCfg)
    (inst : Option String) (obj : Obj) (legal : Option Nat) (fs : Fields)
    (anonymization : Bool) (s : St) (k : String) (hne : k ≠ "")
    (hg : (!anonymization && !cfg.reversibleAnonymization) = false) :
    (updateObj w cfg inst obj legal fs (some k) anonymization s).storedKey =
      some k ∧
    (cfg.reversibleAnonymization = true → ∀ c,
      getEncryptionKey w cfg
        (updateObj w cfg inst obj legal fs (some k) anonymization s).storedKey
        c = (Except.ok k, c)) := by
  have h1 : (updateObj w cfg inst obj legal fs (some k) anonymization
      s).storedKey = some k := by
    rw [updateObj_storedKey w cfg inst obj legal fs (some k) anonymization s
      hg]
    simp [strTruthy, hne]
  refine ⟨h1, fun hrev c => ?_⟩
  rw [h1]
  unfold getEncryptionKey
  simp [hrev, strTruthy, hne]

theorem c10_witness :
    ("KEY" : String) ≠ "" ∧
    ((!true && !cfgRev.reversibleAnonymization) = false) ∧
    (updateObj wTest cfgRev none objTest none fsEmptyTest (some "KEY") true
      stTest).storedKey = some "KEY" :=
  ⟨by decide, by decide,
    (c10_base_key_persists wTest cfgRev none objTest none fsEmptyTest true
      stTest "KEY" (by decide) (by decide)).1⟩

/-- Claim C10 counterexample: the empty string is a non-`None`
`base_encryption_key`, yet it is not stored on the instance — after the call
the instance key is still `None`, not `some ""`. -/
theorem c10_counterexample :
    (updateObj wTest cfgRev none objTest none fsEmptyTest (some "") true
      stTest).storedKey = none ∧
    (none : Option String) ≠ some "" := by
  constructor
  · rw [updateObj_storedKey wTest cfgRev none objTest none fsEmptyTest
      (some "") true stTest (by decide)]
    rfl
  · simp

theorem randomChoicesList_length (stream : Nat → Nat) :
    ∀ k c, (randomChoicesList stream k c).length = k := by
  intro k
  induction k with
  | zero => intro c; rfl
  | succ n ih => intro c; simp [randomChoicesList, ih]

theorem randomChoicesList_mem (stream : Nat → Nat) :
    ∀ k c, ∀ ch ∈ randomChoicesList stream k c, ch ∈ randomAlphabet := by
  intro k
  induction k with
  | zero => intro c ch h; simp [randomChoicesList] at h
  | succ n ih =>
    intro c ch h
    simp only [randomChoicesList, List.mem_cons] at h
    cases h with
    | inl h => rw [h]; exact List.get_mem _ _ _
    | inr h => exact ih (c + 1) ch h

theorem randomAlphabet_alphanum : ∀ ch ∈ randomAlphabet, ch.isAlphanum := by
  decide

/-- Claim C5 (amended): `get_encryption_key` on an irreversible type returns a
fresh random alphanumeric string of length 128 (each character drawn from the
digits-and-letters alphabet) and advances the randomness stream by 128
positions, so every call draws fresh randomness; on a reversible type it
returns the supplied base key when that key is non-empty; when no usable
(truthy) key is available it fails with the configuration error, and an
`update_obj` call that reaches key derivation then aborts with the whole
state — in particular the store — unchanged, before any write.  (The claim's
unconditional "returns the supplied base key" fails for the supplied empty
string, which Python truthiness treats as absent.) -/
theorem c5_get_encryption_key (w : World) (cfg : AnonCfg) :
    (cfg.reversibleAnonymization = false → ∀ inst c,
      getEncryptionKey w cfg inst c =
        (Except.ok (randomChoices w.randStream 128 c), c + 128) ∧
      (randomChoices w.randStream 128 c).length = 128 ∧
      (∀ ch ∈ (randomChoices w.randStream 128 c).data, ch.isAlphanum)) ∧
    (cfg.reversibleAnonymization = true → ∀ k c, k ≠ "" →
      getEncryptionKey w cfg (some k) c = (Except.ok k, c)) ∧
    (cfg.reversibleAnonymization = true → ∀ inst c, strTruthy inst = false →
      getEncryptionKey w cfg inst c = (Except.error Err.configurationKey, c)) ∧
    (∀ inst obj legal a locals rels bek s f rest fa,
      cfg.reversibleAnonymization = true → strTruthy inst = false →
      strTruthy bek = false →
      (locals.filter fun i => !(isFieldAnonymized s.db cfg obj i)) = f :: rest →
      cfg.findFieldAnonymizer f = some fa →
      updateObj w cfg inst obj legal (Fields.mk a locals rels) bek true s =
        { storedKey := inst, st := s, err := some Err.configurationKey }) := by
  refine ⟨?_, ?_, ?_, ?_⟩
  · intro hrev inst c
    refine ⟨by unfold getEncryptionKey; simp [hrev], ?_, ?_⟩
    · show (String.mk (randomChoicesList w.randStream 128 c)).length = 128
      rw [String.length_mk, randomChoicesList_length]
    · intro ch h
      exact randomAlphabet_alphanum ch (randomChoicesList_mem w.randStream 128 c ch h)
  · intro hrev k c hne
    unfold getEncryptionKey
    simp [hrev, strTruthy, hne]
  · intro hrev inst c hfalse
    unfold getEncryptionKey
    simp [hrev, hfalse]
  · intro inst obj legal a locals rels bek s f rest fa hrev hinst hbek hsel hfa
    rw [updateObj]
    have hkey : getEncryptionKeyHash w cfg inst obj f s.ctr =
        (Except.error Err.configurationKey, s.ctr) := by
      unfold getEncryptionKeyHash getEncryptionKey
      rw [hrev, hinst]
      simp
    simp only [Bool.not_true, hrev, Bool.and_false, Bool.false_eq_true,
      if_false, hbek, hsel, if_true, buildUpdateDict, hfa, hkey,
      List.isEmpty_cons]

theorem c5_witness :
    cfgRev.reversibleAnonymization = true ∧
    strTruthy (none : Option String) = false ∧
    ((["email"].filter fun i =>
      !(isFieldAnonymized stTest.db cfgRev objTest i)) = ["email"]) ∧
    cfgRev.findFieldAnonymizer "email" = some faTest ∧
    updateObj wTest cfgRev none objTest none (Fields.mk cfgRev ["email"] [])
      none true stTest =
      { storedKey := none, st := stTest, err := some Err.configurationKey } :=
  ⟨rfl, rfl, by decide, rfl,
    (c5_get_encryption_key wTest cfgRev).2.2.2 none objTest none cfgRev
      ["email"] [] none stTest "email" [] faTest rfl rfl rfl (by decide) rfl⟩

/-- Claim C5 counterexample: on a reversible anonymizer whose supplied base
encryption key is the empty string, `get_encryption_key` raises the
configuration error instead of returning the supplied key. -/
theorem c5_counterexample :
    getEncryptionKey wTest cfgRev (some "") 0 =
      (Except.error Err.configurationKey, 0) ∧
    (Except.error Err.configurationKey : Except Err String) ≠ Except.ok "" :=
  ⟨rfl, fun h => Except.noConfusion h⟩

theorem string_append_left_cancel {s t u : String} (h : s ++ t = s ++ u) :
    t = u := by
  have hd := congrArg String.data h
  simp only [String.data_append] at hd
  exact String.ext (List.append_cancel_left hd)

/-- Claim C4: the per-field encryption key is the SHA-256 digest of the
`::`-delimited concatenation of the object's primary key, the base secret,
the process-wide secret and the field name; for two distinct field names on
the same object with the same base secret the preimage strings differ, hence
(for a collision-free digest) the derived keys differ. -/
theorem c4_key_derivation (w : World) (cfg : AnonCfg) (inst : Option String)
    (obj : Obj) :
    (∀ name c base c1,
      getEncryptionKey w cfg inst c = (Except.ok base, c1) →
      getEncryptionKeyHash w cfg inst obj name c =
        (Except.ok
          (w.sha256hex (encryptionKeyPreimage obj.pk base w.secretKey name)),
          c1)) ∧
    (∀ pk base secret n1 n2, n1 ≠ n2 →
      encryptionKeyPreimage pk base secret n1 ≠
        encryptionKeyPreimage pk base secret n2) ∧
    (Function.Injective w.sha256hex → ∀ pk base secret n1 n2, n1 ≠ n2 →
      w.sha256hex (encryptionKeyPreimage pk base secret n1) ≠
        w.sha256hex (encryptionKeyPreimage pk base secret n2)) := by
  have hpre : ∀ (pk : Nat) (base secret n1 n2 : String), n1 ≠ n2 →
      encryptionKeyPreimage pk base secret n1 ≠
        encryptionKeyPreimage pk base secret n2 := by
    intro pk base secret n1 n2 hne h
    exact hne (string_append_left_cancel h)
  refine ⟨?_, hpre, ?_⟩
  · intro name c base c1 h
    unfold getEncryptionKeyHash
    rw [h]
    rfl
  · intro hinj pk base secret n1 n2 hne h
    exact hpre pk base secret n1 n2 hne (hinj h)

theorem c4_witness :
    getEncryptionKey wTest cfgRev (some "BASE") 0 = (Except.ok "BASE", 0) ∧
    ("email" : String) ≠ "phone" ∧
    getEncryptionKeyHash wTest cfgRev (some "BASE") objTest "email" 0 =
      (Except.ok
        (wTest.sha256hex
          (encryptionKeyPreimage objTest.pk "BASE" wTest.secretKey "email")),
        0) ∧
    wTest.sha256hex (encryptionKeyPreimage 7 "BASE" "SECRET" "email") ≠
      wTest.sha256hex (encryptionKeyPreimage 7 "BASE" "SECRET" "phone") :=
  ⟨rfl, by decide,
    (c4_key_derivation wTest cfgRev (some "BASE") objTest).1 "email" 0 "BASE"
      0 rfl,
    (c4_key_derivation wTest cfgRev (some "BASE") objTest).2.2
      (fun a b h => h) 7 "BASE" "SECRET" "email" "phone" (by decide)⟩

/-- Claim C6: each related-field entry is resolved in the fixed order
(a) declared `RelationAnonymizer`, (b) schema relation descriptor — iterating
all related objects for one-to-many/many-to-many and processing the single
related object only if present for many-to-one/one-to-one — and (c) plain
attribute/property, warning and skipping the branch when the attribute is
neither a single entity nor a collection; and each recursive `update_obj`
call on a related object receives an encryption key derived from the parent
object scoped to the parent field name. -/
theorem c6_related_field_resolution (w : World) (cfg : AnonCfg)
    (inst : Option String) (obj : Obj) (legal : Option Nat) (name : String)
    (child : Fields) (anonymization : Bool) (s : St) :
    (updateRelatedField w cfg inst obj legal name child anonymization s =
      specProcessResolution w cfg inst obj legal name child anonymization s
        (specResolveRelated w cfg obj name)) ∧
    (∀ b o rest, cfg.reversibleAnonymization = true → inst = some b →
      b ≠ "" →
      updateTargets w cfg inst obj legal name child (o :: rest)
        anonymization s =
        (let key := w.sha256hex
          (encryptionKeyPreimage obj.pk b w.secretKey name)
         let r := updateObj w child.anonymizer none o legal child (some key)
          anonymization s
         match r.err with
         | some e => (r.st, some e)
         | none =>
           updateTargets w cfg inst obj legal name child rest anonymization
             r.st)) := by
  constructor
  · rw [updateRelatedField]
    unfold specResolveRelated
    cases hra : cfg.findRelationAnonymizer name with
    | some r =>
      simp only [specProcessResolution]
      rw [updateRelatedAnonymizerFields]
    | none =>
      cases hmf : w.getFieldOrNone cfg.modelName name with
      | some card =>
        cases card <;>
          simp only [specProcessResolution] <;>
          rw [updateRelatedModelFields] <;>
          try rfl
        · cases hro : w.relatedOne obj name <;> simp [specProcessResolution]
        · cases hro : w.relatedOne obj name <;> simp [specProcessResolution]
      | none =>
        cases hpv : w.propAttr obj name with
        | noneValue b =>
          cases b <;> simp only [specProcessResolution] <;>
            rw [updateRelatedModelPropertyFields] <;> simp [hpv]
        | singleModel o =>
          simp only [specProcessResolution]
          rw [updateRelatedModelPropertyFields]
          simp [hpv]
        | queryset objs =>
          simp only [specProcessResolution]
          rw [updateRelatedModelPropertyFields]
          simp [hpv]
        | otherValue =>
          simp only [specProcessResolution]
          rw [updateRelatedModelPropertyFields]
          simp [hpv]
  · intro b o rest hrev hinst hne
    subst hinst
    rw [updateTargets]
    have hk : getEncryptionKeyHash w cfg (some b) obj name s.ctr =
        (Except.ok
          (w.sha256hex (encryptionKeyPreimage obj.pk b w.secretKey name)),
          s.ctr) := by
      unfold getEncryptionKeyHash getEncryptionKey
      rw [hrev]
      simp [strTruthy, hne, encryptionKeyPreimage]
    simp only [hk]

theorem c6_witness :
    cfgRev.reversibleAnonymization = true ∧ ("KEY" : String) ≠ "" ∧
    updateTargets wTest cfgRev (some "KEY") objTest none "addresses"
      fsEmptyTest [objTest] true stTest =
      (let key := wTest.sha256hex
        (encryptionKeyPreimage objTest.pk "KEY" wTest.secretKey "addresses")
       let r := updateObj wTest fsEmptyTest.anonymizer none objTest none
        fsEmptyTest (some key) true stTest
       match r.err with
       | some e => (r.st, some e)
       | none =>
         updateTargets wTest cfgRev (some "KEY") objTest none "addresses"
           fsEmptyTest [] true r.st) :=
  ⟨rfl, by decide,
    (c6_related_field_resolution wTest cfgRev (some "KEY") objTest none
      "addresses" fsEmptyTest true stTest).2 "KEY" objTest [] rfl rfl
      (by decide)⟩

theorem updateRelatedFields_nil (w : World) (cfg : AnonCfg)
    (inst : Option String) (obj : Obj) (legal : Option Nat)
    (anonymization : Bool) (s : St) :
    updateRelatedFields w cfg inst obj legal [] anonymization s = (s, none) := by
  rw [updateRelatedFields]

/-- With `__SELF__` requested and `anonymization=False`,
`DeleteModelAnonymizer.update_obj` strips the token from the caller's
`Fields` object and delegates to the base engine. -/
theorem deleteUpdateObj_strip (w : World) (cfg : AnonCfg)
    (inst : Option String) (obj : Obj) (legal : Option Nat) (fs : Fields)
    (bek : Option String) (s : St)
    (h : fs.localFields.contains DELETE_FIELD_NAME = true) :
    deleteUpdateObj w cfg inst obj legal fs bek false s =
      { res := updateObj w cfg inst obj legal
          (Fields.mk fs.anonymizer
            (fs.localFields.filter fun i => !(i == DELETE_FIELD_NAME))
            fs.relatedFields) bek false s,
        fieldsAfter := Fields.mk fs.anonymizer
          (fs.localFields.filter fun i => !(i == DELETE_FIELD_NAME))
          fs.relatedFields } := by
  unfold deleteUpdateObj
  simp only [Bool.and_false, Bool.false_eq_true, if_false, h,
    eq_self_iff_true, if_true]

/-- With `__SELF__` requested and `anonymization=True`, and the related-field
recursion returning without an exception, `DeleteModelAnonymizer.update_obj`
equals: recurse into the related fields first, then delete the object from
the store, then purge the auditlog when so configured. -/
theorem deleteUpdateObj_self_branch (w : World) (cfg : AnonCfg)
    (inst : Option String) (obj : Obj) (legal : Option Nat) (fs : Fields)
    (bek : Option String) (s : St)
    (h : fs.localFields.contains DELETE_FIELD_NAME = true)
    (hr : (updateRelatedFields w cfg inst obj legal fs.relatedFields true
      s).2 = none) :
    deleteUpdateObj w cfg inst obj legal fs bek true s =
      (let r := updateRelatedFields w cfg inst obj legal fs.relatedFields
          true s
       let s1 : St :=
          { r.1 with db := deleteObjFromDB r.1.db obj }
       { res :=
          { storedKey := inst,
            st :=
              if cfg.deleteAuditlogFlag then deleteAuditlog obj true s1
              else s1,
            err := none },
         fieldsAfter := fs }) := by
  unfold deleteUpdateObj
  simp only [h, Bool.true_and, eq_self_iff_true, if_true, hr]

def cfgDel : AnonCfg := { cfgRev with deleteAuditlogFlag := true }

def fsSelfDel : Fields := Fields.mk cfgDel ["__SELF__"] []

def logTest : LogEntry :=
  { contentType := "Customer", objectId := "7",
    changes := [("email", "old@example.com")] }

def stLog : St :=
  { db := { objects := [objTest], anonymizedData := [], auditlog := [logTest] },
    ctr := 0, warnings := [] }

/-- Claim C7: on the Delete variant, when `__SELF__` is among the local
fields and `anonymization=True`, `update_obj` first recurses into the
requested related fields (the resulting `AnonymizedData` of that recursion is
what the final state carries), then deletes the root entity from the store,
then purges its audit history when so configured; with `anonymization=False`
the entity is not deleted, and when `__SELF__` was the only requested field
the state is returned untouched. -/
theorem c7_delete_variant (w : World) (cfg : AnonCfg)
    (inst : Option String) (obj : Obj) (legal : Option Nat) (fs : Fields)
    (bek : Option String) (s : St)
    (hself : fs.localFields.contains DELETE_FIELD_NAME = true) :
    ((updateRelatedFields w cfg inst obj legal fs.relatedFields true s).2 =
        none →
      (deleteUpdateObj w cfg inst obj legal fs bek true s).res.err = none ∧
      (∀ o ∈ (deleteUpdateObj w cfg inst obj legal fs bek true
          s).res.st.db.objects,
        ¬(o.modelName = obj.modelName ∧ o.pk = obj.pk)) ∧
      (deleteUpdateObj w cfg inst obj legal fs bek true
          s).res.st.db.anonymizedData =
        (updateRelatedFields w cfg inst obj legal fs.relatedFields true
          s).1.db.anonymizedData ∧
      (cfg.deleteAuditlogFlag = true →
        ∀ e ∈ (deleteUpdateObj w cfg inst obj legal fs bek true
            s).res.st.db.auditlog,
          e.isFor obj = false)) ∧
    (∀ a, fs = Fields.mk a [DELETE_FIELD_NAME] [] →
      (deleteUpdateObj w cfg inst obj legal fs bek false s).res.st = s) := by
  constructor
  · intro hr
    rw [deleteUpdateObj_self_branch w cfg inst obj legal fs bek s hself hr]
    refine ⟨rfl, ?_, ?_, ?_⟩
    · intro o ho hko
      by_cases hflag : cfg.deleteAuditlogFlag = true
      · simp only [hflag, if_true, deleteAuditlog, deleteObjFromDB,
          List.mem_filter] at ho
        simp [hko.1, hko.2] at ho
      · simp only [hflag, if_false, deleteAuditlog, deleteObjFromDB,
          List.mem_filter, Bool.false_eq_true] at ho
        simp [hko.1, hko.2] at ho
    · by_cases hflag : cfg.deleteAuditlogFlag = true
      · simp [hflag, deleteAuditlog, deleteObjFromDB]
      · simp [hflag, deleteAuditlog, deleteObjFromDB]
    · intro hflag e he
      simp only [hflag, if_true, deleteAuditlog, deleteObjFromDB,
        List.mem_filter] at he
      simpa using he.2
  · intro a hfs
    subst hfs
    rw [deleteUpdateObj_strip w cfg inst obj legal _ bek s hself]
    simp only [Fields.localFields, Fields.relatedFields, Fields.anonymizer]
    have hfilter : (List.filter (fun i => !(i == DELETE_FIELD_NAME))
        [DELETE_FIELD_NAME]) = [] := by decide
    rw [hfilter]
    cases hrev : cfg.reversibleAnonymization with
    | false =>
      rw [updateObj_guard w cfg inst obj legal _ bek s hrev]
    | true =>
      rw [updateObj]
      simp only [Bool.not_false, hrev, Bool.not_true, Bool.and_false,
        Bool.false_eq_true, if_false, Bool.false_and]
      simp only [selectDeanonFields, List.isEmpty_nil, if_true,
        updateRelatedFields_nil]

theorem c7_witness :
    fsSelfDel.localFields.contains DELETE_FIELD_NAME = true ∧
    (updateRelatedFields wTest cfgDel none objTest none
      fsSelfDel.relatedFields true stLog).2 = none ∧
    ((deleteUpdateObj wTest cfgDel none objTest none fsSelfDel none true
        stLog).res.err = none ∧
      (∀ o ∈ (deleteUpdateObj wTest cfgDel none objTest none fsSelfDel none
          true stLog).res.st.db.objects,
        ¬(o.modelName = objTest.modelName ∧ o.pk = objTest.pk)) ∧
      (deleteUpdateObj wTest cfgDel none objTest none fsSelfDel none true
          stLog).res.st.db.anonymizedData =
        (updateRelatedFields wTest cfgDel none objTest none
          fsSelfDel.relatedFields true stLog).1.db.anonymizedData ∧
      (cfgDel.deleteAuditlogFlag = true →
        ∀ e ∈ (deleteUpdateObj wTest cfgDel none objTest none fsSelfDel none
            true stLog).res.st.db.auditlog,
          e.isFor objTest = false)) := by
  have hr : (updateRelatedFields wTest cfgDel none objTest none
      fsSelfDel.relatedFields true stLog).2 = none := by
    simp only [fsSelfDel, Fields.relatedFields, updateRelatedFields_nil]
  exact ⟨by decide, hr,
    (c7_delete_variant wTest cfgDel none objTest none fsSelfDel none stLog
      (by decide)).1 hr⟩

/-- Claim C8 (amended): when the Delete variant strips the `__SELF__` token
(`__SELF__` requested with `anonymization=False`), it does so by assigning
the filtered list to `local_fields` of the caller-supplied `Fields` object —
an in-place mutation visible to the caller, not a fresh `Fields` value: the
caller's `Fields` afterwards carries `local_fields` without `__SELF__`; in
every other branch the caller's `Fields` is unchanged. -/
theorem c8_delete_strip_mutates_fields (w : World) (cfg : AnonCfg)
    (inst : Option String) (obj : Obj) (legal : Option Nat) (fs : Fields)
    (bek : Option String) (anonymization : Bool) (s : St) :
    (deleteUpdateObj w cfg inst obj legal fs bek anonymization
        s).fieldsAfter =
      (if fs.localFields.contains DELETE_FIELD_NAME && !anonymization then
        Fields.mk fs.anonymizer
          (fs.localFields.filter fun i => !(i == DELETE_FIELD_NAME))
          fs.relatedFields
      else fs) := by
  cases anonymization with
  | true =>
    simp only [Bool.not_true, Bool.and_false, Bool.false_eq_true, if_false]
    unfold deleteUpdateObj
    cases hc : fs.localFields.contains DELETE_FIELD_NAME with
    | false => simp [hc]
    | true =>
      simp only [hc, Bool.true_and, eq_self_iff_true, if_true]
      split <;> rfl
  | false =>
    simp only [Bool.not_false, Bool.and_true]
    cases hc : fs.localFields.contains DELETE_FIELD_NAME with
    | false =>
      unfold deleteUpdateObj
      simp only [Bool.and_false, Bool.false_eq_true, if_false, hc]
    | true =>
      rw [deleteUpdateObj_strip w cfg inst obj legal fs bek s hc]
      simp [hc]

/-- Claim C8 counterexample: a deanonymization call on a Delete-variant
anonymizer with the caller's `Fields` holding `local_fields == ["__SELF__"]`
leaves the caller's `Fields` with `local_fields == []` — the supplied
`Fields` value is mutated in place, contradicting the claim that its
`local_fields` set is the same after the call. -/
theorem c8_counterexample :
    (deleteUpdateObj wTest cfgRev none objTest none fsSelfTest none false
      stTest).fieldsAfter.localFields = [] ∧
    fsSelfTest.localFields = ["__SELF__"] ∧
    ([] : List String) ≠ ["__SELF__"] :=
  ⟨rfl, rfl, by decide⟩

/-! Helper lemmas about the local-field phase. -/

theorem setAttr_modelName (o : Obj) (n v : String) :
    (o.setAttr n v).modelName = o.modelName := rfl

theorem setAttr_pk (o : Obj) (n v : String) : (o.setAttr n v).pk = o.pk := rfl

theorem setAttrList_modelName (upd : List (String × String)) : ∀ o : Obj,
    (setAttrList o upd).modelName = o.modelName := by
  induction upd with
  | nil => intro o; rfl
  | cons p rest ih =>
    intro o
    show (setAttrList (o.setAttr p.1 p.2) rest).modelName = o.modelName
    rw [ih]
    rfl

theorem setAttrList_pk (upd : List (String × String)) : ∀ o : Obj,
    (setAttrList o upd).pk = o.pk := by
  induction upd with
  | nil => intro o; rfl
  | cons p rest ih =>
    intro o
    show (setAttrList (o.setAttr p.1 p.2) rest).pk = o.pk
    rw [ih]
    rfl

/-- Dictionary access on the scalar attributes (`obj.<field>`). -/
def lookupAttr : List (String × String) → String → Option String
  | [], _ => none
  | p :: rest, f => if f == p.1 then some p.2 else lookupAttr rest f

theorem setAttr_lookup_ne (o : Obj) (n v f : String) (h : (f == n) = false) :
    lookupAttr (o.setAttr n v).attrs f = lookupAttr o.attrs f := by
  unfold Obj.setAttr
  by_cases hany : o.attrs.any (fun p => p.1 == n)
  · simp only [hany, if_true]
    induction o.attrs with
    | nil => rfl
    | cons p rest ih =>
      cases hp : (p.1 == n) with
      | true =>
        have hfp : (f == p.1) = false := by
          have hpn : p.1 = n := beq_iff_eq.mp hp
          rw [hpn]
          exact h
        simp only [List.map_cons, hp, eq_self_iff_true, if_true, lookupAttr,
          hfp, Bool.false_eq_true, if_false]
        exact ih
      | false =>
        simp only [List.map_cons, hp, Bool.false_eq_true, if_false,
          lookupAttr]
        cases hfp : (f == p.1) with
        | true => simp [hfp]
        | false => simp only [hfp, Bool.false_eq_true, if_false]; exact ih
  · simp only [hany, if_false]
    induction o.attrs with
    | nil => simp [lookupAttr, h]
    | cons p rest ih =>
      simp only [List.cons_append, lookupAttr]
      cases hfp : (f == p.1) with
      | true => simp [hfp]
      | false => simp only [hfp, Bool.false_eq_true, if_false]; exact ih

theorem setAttrList_lookup_not_mem (f : String) :
    ∀ (upd : List (String × String)) (o : Obj),
    (∀ p ∈ upd, (f == p.1) = false) →
    lookupAttr (setAttrList o upd).attrs f = lookupAttr o.attrs f := by
  intro upd
  induction upd with
  | nil => intro o _; rfl
  | cons p rest ih =>
    intro o h
    show lookupAttr (setAttrList (o.setAttr p.1 p.2) rest).attrs f = _
    rw [ih (o.setAttr p.1 p.2) (fun q hq => h q (List.mem_cons_of_mem p hq))]
    exact setAttr_lookup_ne o p.1 p.2 f (h p (List.mem_cons_self p rest))

theorem saveObj_key_mem (db : DB) (o2 : Obj) :
    ∀ o ∈ (db.saveObj o2).objects, o.modelName = o2.modelName →
    o.pk = o2.pk → o = o2 := by
  unfold DB.saveObj
  by_cases hany : db.objects.any
    (fun x => x.modelName == o2.modelName && x.pk == o2.pk)
  · simp only [hany, if_true]
    intro o ho hm hp
    rw [List.mem_map] at ho
    obtain ⟨x, hx, hxo⟩ := ho
    by_cases hcond : (x.modelName == o2.modelName && x.pk == o2.pk) = true
    · rw [if_pos hcond] at hxo
      exact hxo.symm
    · rw [if_neg hcond] at hxo
      subst hxo
      exact absurd (by simp [hm, hp]) hcond
  · simp only [hany, Bool.false_eq_true, if_false]
    intro o ho hm hp
    rw [List.mem_append] at ho
    cases ho with
    | inl ho =>
      refine absurd ?_ hany
      rw [List.any_eq_true]
      exact ⟨o, ho, by simp [hm, hp]⟩
    | inr ho =>
      simpa using ho

/-- The `AnonymizedData` row created by `update_field_as_anonymized` (active
by default, carrying the legal reason). -/
def mkAnonRecord (obj : Obj) (name : String) (legal : Option Nat) :
    AnonymizedData :=
  { contentType := obj.modelName, objectId := toString obj.pk, field := name,
    isActive := true, expiredReason := legal }

theorem foldl_updateField_true (cfg : AnonCfg) (obj : Obj)
    (legal : Option Nat) : ∀ (d : List (String × String)) (db : DB),
    (d.foldl (fun acc p => updateFieldAsAnonymized cfg obj p.1 legal true acc)
      db).anonymizedData =
      db.anonymizedData ++ d.map (fun p => mkAnonRecord obj p.1 legal) := by
  intro d
  induction d with
  | nil => intro db; simp
  | cons p rest ih =>
    intro db
    rw [List.foldl_cons, ih]
    simp [updateFieldAsAnonymized, mkAnonRecord, List.append_assoc]

theorem foldl_updateField_objects (cfg : AnonCfg) (obj : Obj)
    (legal : Option Nat) (an : Bool) :
    ∀ (d : List (String × String)) (db : DB),
    (d.foldl (fun acc p => updateFieldAsAnonymized cfg obj p.1 legal an acc)
      db).objects = db.objects := by
  intro d
  induction d with
  | nil => intro db; rfl
  | cons p rest ih =>
    intro db
    rw [List.foldl_cons, ih]
    unfold updateFieldAsAnonymized
    cases an <;> rfl

/-- The records removed by the deanonymization branch of
`update_field_as_anonymized` over a list of field names. -/
def deanonMatches (cfg : AnonCfg) (obj : Obj) (names : List String)
    (r : AnonymizedData) : Bool :=
  r.isActive && r.contentType == cfg.modelName
    && r.objectId == toString obj.pk && names.contains r.field

theorem foldl_updateField_false (cfg : AnonCfg) (obj : Obj)
    (legal : Option Nat) : ∀ (d : List (String × String)) (db : DB),
    (d.foldl
      (fun acc p => updateFieldAsAnonymized cfg obj p.1 legal false acc)
      db).anonymizedData =
      db.anonymizedData.filter
        (fun r => !(deanonMatches cfg obj (d.map Prod.fst) r)) := by
  intro d
  induction d with
  | nil =>
    intro db
    simp [deanonMatches]
  | cons p rest ih =>
    intro db
    rw [List.foldl_cons, ih]
    show ((updateFieldAsAnonymized cfg obj p.1 legal false
      db).anonymizedData).filter _ = _
    unfold updateFieldAsAnonymized
    simp only [Bool.false_eq_true, if_false, List.filter_filter]
    apply List.filter_congr
    intro r _
    simp only [deanonMatches, List.map_cons, List.contains_cons]
    cases hx : (r.field == p.1) <;> cases ha : r.isActive <;>
      cases hb : (r.contentType == cfg.modelName) <;>
      cases hc : (r.objectId == toString obj.pk) <;>
      cases hy : ((rest.map Prod.fst).contains r.field) <;> rfl

theorem getEncryptionKeyHash_reversible (w : World) (cfg : AnonCfg)
    (obj : Obj) (name : String) (c : Nat) (b : String)
    (hrev : cfg.reversibleAnonymization = true) (hne : b ≠ "") :
    getEncryptionKeyHash w cfg (some b) obj name c =
      (Except.ok (w.sha256hex (encryptionKeyPreimage obj.pk b w.secretKey
        name)), c) := by
  unfold getEncryptionKeyHash getEncryptionKey
  rw [hrev]
  simp [strTruthy, hne, encryptionKeyPreimage]

theorem buildUpdateDict_keys (w : World) (cfg : AnonCfg)
    (inst : Option String) (obj : Obj) (an : Bool) :
    ∀ (names : List String) (c : Nat) (d : List (String × String)) (c1 : Nat),
    buildUpdateDict w cfg inst obj an names c = (Except.ok d, c1) →
    d.map Prod.fst = names := by
  intro names
  induction names with
  | nil =>
    intro c d c1 h
    simp only [buildUpdateDict, Prod.mk.injEq, Except.ok.injEq] at h
    rw [← h.1]
    rfl
  | cons n rest ih =>
    intro c d c1 h
    simp only [buildUpdateDict] at h
    cases hfa : cfg.findFieldAnonymizer n with
    | none => rw [hfa] at h; simp at h
    | some fa =>
      rw [hfa] at h
      cases hk : getEncryptionKeyHash w cfg inst obj n c with
      | mk e c2 =>
        rw [hk] at h
        cases e with
        | error err => simp at h
        | ok key =>
          simp only [] at h
          cases hrest : buildUpdateDict w cfg inst obj an rest c2 with
          | mk er c3 =>
            rw [hrest] at h
            cases er with
            | error err => simp at h
            | ok drest =>
              simp only [Prod.mk.injEq, Except.ok.injEq] at h
              rw [← h.1]
              simp only [List.map_cons]
              rw [ih c2 drest c3 hrest]

/-- Total variant of the `self.fields[name]` lookup, for stating the
transforms applied to selected fields (only used where the lookup is known to
succeed). -/
def getFa (cfg : AnonCfg) (n : String) : FieldAnonymizer :=
  (cfg.findFieldAnonymizer n).getD
    { getIsReversible := fun _ => true,
      getValueFromObj := fun _ _ k _ => k,
      getValueFromEntry := fun _ _ _ k _ => k }

theorem buildUpdateDict_ok (w : World) (cfg : AnonCfg) (obj : Obj)
    (an : Bool) (b : String) (hrev : cfg.reversibleAnonymization = true)
    (hne : b ≠ "") :
    ∀ (names : List String) (c : Nat),
    (∀ n ∈ names, cfg.findFieldAnonymizer n ≠ none) →
    buildUpdateDict w cfg (some b) obj an names c =
      (Except.ok (names.map fun n => (n,
        (getFa cfg n).getValueFromObj obj n
          (w.sha256hex (encryptionKeyPreimage obj.pk b w.secretKey n)) an)),
        c) := by
  intro names
  induction names with
  | nil => intro c _; rfl
  | cons n rest ih =>
    intro c h
    cases hfa : cfg.findFieldAnonymizer n with
    | none => exact absurd hfa (h n (List.mem_cons_self n rest))
    | some fa =>
      simp only [buildUpdateDict, hfa,
        getEncryptionKeyHash_reversible w cfg obj n c b hrev hne,
        ih c (fun x hx => h x (List.mem_cons_of_mem n hx)), List.map_cons]
      simp [getFa, hfa]

/-- The deanonymization target set: requested local fields that are marked
anonymized and whose field anonymizer reports reversible for this object. -/
def deanonSelect (cfg : AnonCfg) (db : DB) (obj : Obj)
    (locals : List String) : List String :=
  locals.filter fun i => isFieldAnonymized db cfg obj i &&
    (match cfg.findFieldAnonymizer i with
     | some fa => fa.getIsReversible obj
     | none => false)

theorem selectDeanonFields_eq (cfg : AnonCfg) (db : DB) (obj : Obj) :
    ∀ locals : List String,
    (∀ i ∈ locals, isFieldAnonymized db cfg obj i = true →
      cfg.findFieldAnonymizer i ≠ none) →
    selectDeanonFields cfg db obj locals =
      Except.ok (deanonSelect cfg db obj locals) := by
  intro locals
  induction locals with
  | nil => intro _; rfl
  | cons i rest ih =>
    intro h
    have ihr := ih (fun x hx => h x (List.mem_cons_of_mem i hx))
    cases hanon : isFieldAnonymized db cfg obj i with
    | false =>
      simp only [selectDeanonFields, hanon, Bool.false_eq_true, if_false,
        ihr, deanonSelect, List.filter_cons, Bool.false_and]
    | true =>
      cases hfa : cfg.findFieldAnonymizer i with
      | none =>
        exact absurd hfa (h i (List.mem_cons_self i rest) hanon)
      | some fa =>
        simp only [selectDeanonFields, hanon, if_true, hfa, ihr,
          deanonSelect, List.filter_cons, Bool.true_and]

theorem deleteAuditlog_anonymizedData (obj : Obj) (an : Bool) (s : St) :
    (deleteAuditlog obj an s).db.anonymizedData = s.db.anonymizedData := by
  unfold deleteAuditlog
  split <;> rfl

theorem deleteAuditlog_objects (obj : Obj) (an : Bool) (s : St) :
    (deleteAuditlog obj an s).db.objects = s.db.objects := by
  unfold deleteAuditlog
  split <;> rfl

theorem anonymizeAuditlog_anonymizedData (w : World) (cfg : AnonCfg)
    (inst : Option String) (obj : Obj) (names : List String) (an : Bool)
    (s : St) :
    (anonymizeAuditlog w cfg inst obj names an s).1.db.anonymizedData =
      s.db.anonymizedData := rfl

theorem anonymizeAuditlog_objects (w : World) (cfg : AnonCfg)
    (inst : Option String) (obj : Obj) (names : List String) (an : Bool)
    (s : St) :
    (anonymizeAuditlog w cfg inst obj names an s).1.db.objects =
      s.db.objects := rfl

/-- The audit-interaction step of `update_obj` (lines 362-365 of
`model_anonymizers.py`): delete the auditlog when so configured, else rewrite
it, else do nothing. -/
def auditStep (w : World) (cfg : AnonCfg) (inst1 : Option String) (obj : Obj)
    (raw : List String) (an : Bool) (s1 : St) : St × Option Err :=
  if cfg.deleteAuditlogFlag then (deleteAuditlog obj an s1, none)
  else if cfg.anonymizeAuditlogFlag then
    anonymizeAuditlog w cfg inst1 obj raw an s1
  else (s1, none)

theorem updateObj_noRelated (w : World) (cfg : AnonCfg) (inst : Option String)
    (obj : Obj) (legal : Option Nat) (a : AnonCfg) (locals : List String)
    (bek : Option String) (an : Bool) (s : St)
    (hg : (!an && !cfg.reversibleAnonymization) = false) :
    updateObj w cfg inst obj legal (Fields.mk a locals []) bek an s =
      (match (if an then
          Except.ok (locals.filter fun i =>
            !(isFieldAnonymized s.db cfg obj i))
        else selectDeanonFields cfg s.db obj locals) with
       | Except.error e =>
         { storedKey := if strTruthy bek then bek else inst, st := s,
           err := some e }
       | Except.ok raw =>
         if raw.isEmpty then
           { storedKey := if strTruthy bek then bek else inst, st := s,
             err := none }
         else
           match buildUpdateDict w cfg (if strTruthy bek then bek else inst)
             obj an raw s.ctr with
           | (Except.error e, c1) =>
             { storedKey := if strTruthy bek then bek else inst,
               st := { s with ctr := c1 }, err := some e }
           | (Except.ok d, c1) =>
             match (auditStep w cfg (if strTruthy bek then bek else inst) obj
               raw an { s with ctr := c1 }).2 with
             | some e =>
               { storedKey := if strTruthy bek then bek else inst,
                 st := (auditStep w cfg (if strTruthy bek then bek else inst)
                   obj raw an { s with ctr := c1 }).1,
                 err := some e }
             | none =>
               { storedKey := if strTruthy bek then bek else inst,
                 st := { (auditStep w cfg
                     (if strTruthy bek then bek else inst) obj raw an
                     { s with ctr := c1 }).1 with
                   db := (performUpdate cfg obj d legal an
                     (auditStep w cfg (if strTruthy bek then bek else inst)
                       obj raw an { s with ctr := c1 }).1.db).2 },
                 err := none }) := by
  rw [updateObj]
  simp only [hg, Bool.false_eq_true, if_false, updateRelatedFields_nil,
    auditStep]

theorem auditStep_anonymizedData (w : World) (cfg : AnonCfg)
    (inst1 : Option String) (obj : Obj) (raw : List String) (an : Bool)
    (s1 : St) :
    (auditStep w cfg inst1 obj raw an s1).1.db.anonymizedData =
      s1.db.anonymizedData := by
  unfold auditStep
  split
  · rw [deleteAuditlog_anonymizedData]
  split
  · rw [anonymizeAuditlog_anonymizedData]
  · rfl

theorem auditStep_objects (w : World) (cfg : AnonCfg)
    (inst1 : Option String) (obj : Obj) (raw : List String) (an : Bool)
    (s1 : St) :
    (auditStep w cfg inst1 obj raw an s1).1.db.objects = s1.db.objects := by
  unfold auditStep
  split
  · rw [deleteAuditlog_objects]
  split
  · rw [anonymizeAuditlog_objects]
  · rfl

theorem saveObj_anonymizedData (db : DB) (o : Obj) :
    (db.saveObj o).anonymizedData = db.anonymizedData := by
  unfold DB.saveObj
  split <;> rfl

theorem saveObj_auditlog (db : DB) (o : Obj) :
    (db.saveObj o).auditlog = db.auditlog := by
  unfold DB.saveObj
  split <;> rfl

theorem performUpdate_snd_anonymizedData_true (cfg : AnonCfg) (obj : Obj)
    (d : List (String × String)) (legal : Option Nat) (db : DB) :
    (performUpdate cfg obj d legal true db).2.anonymizedData =
      db.anonymizedData
        ++ d.map (fun p => mkAnonRecord (setAttrList obj d) p.1 legal) := by
  unfold performUpdate
  rw [foldl_updateField_true, saveObj_anonymizedData]

theorem performUpdate_snd_anonymizedData_false (cfg : AnonCfg) (obj : Obj)
    (d : List (String × String)) (legal : Option Nat) (db : DB) :
    (performUpdate cfg obj d legal false db).2.anonymizedData =
      db.anonymizedData.filter
        (fun r => !(deanonMatches cfg (setAttrList obj d) (d.map Prod.fst)
          r)) := by
  unfold performUpdate
  rw [foldl_updateField_false, saveObj_anonymizedData]

theorem performUpdate_snd_objects (cfg : AnonCfg) (obj : Obj)
    (d : List (String × String)) (legal : Option Nat) (an : Bool) (db : DB) :
    (performUpdate cfg obj d legal an db).2.objects =
      (db.saveObj (setAttrList obj d)).objects := by
  unfold performUpdate
  rw [foldl_updateField_objects]

theorem deanonMatches_setAttrList (cfg : AnonCfg) (obj : Obj)
    (d : List (String × String)) (names : List String) (r : AnonymizedData) :
    deanonMatches cfg (setAttrList obj d) names r =
      deanonMatches cfg obj names r := by
  unfold deanonMatches
  rw [setAttrList_pk]

theorem mkAnonRecord_setAttrList (obj : Obj) (d : List (String × String))
    (n : String) (legal : Option Nat) :
    mkAnonRecord (setAttrList obj d) n legal = mkAnonRecord obj n legal := by
  unfold mkAnonRecord
  rw [setAttrList_modelName, setAttrList_pk]


/-- Claim C2: anonymization is idempotent per field — a local field that
already has an active `AnonymizedData` record is skipped by the selection of
a second `update_obj(anonymization=True)` call; for a call whose `Fields`
has no related entries, the field's stored value is not transformed again
(every stored object with the root's identity keeps the field's value) and
no second `AnonymizedData` record is created for that field (the set of
records for the field on this object is unchanged). -/
theorem c2_anonymize_idempotent_per_field (w : World) (cfg : AnonCfg)
    (inst : Option String) (obj : Obj) (legal : Option Nat) (a : AnonCfg)
    (locals : List String) (bek : Option String) (s : St) (f : String)
    (hanon : isFieldAnonymized s.db cfg obj f = true)
    (hdb : ∀ o ∈ s.db.objects, o.modelName = obj.modelName →
      o.pk = obj.pk → o = obj) :
    (f ∉ locals.filter fun i => !(isFieldAnonymized s.db cfg obj i)) ∧
    ((updateObj w cfg inst obj legal (Fields.mk a locals []) bek true
        s).st.db.anonymizedData.filter fun rec =>
        rec.field == f && rec.contentType == obj.modelName
          && rec.objectId == toString obj.pk) =
      (s.db.anonymizedData.filter fun rec =>
        rec.field == f && rec.contentType == obj.modelName
          && rec.objectId == toString obj.pk) ∧
    (∀ o ∈ (updateObj w cfg inst obj legal (Fields.mk a locals []) bek true
        s).st.db.objects,
      o.modelName = obj.modelName → o.pk = obj.pk →
      lookupAttr o.attrs f = lookupAttr obj.attrs f) := by
  refine ⟨?_, ?_⟩
  · intro hf
    rw [List.mem_filter] at hf
    simp [hanon] at hf
  rw [updateObj_noRelated w cfg inst obj legal a locals bek true s (by simp)]
  simp only [eq_self_iff_true, if_true]
  cases hempty : (locals.filter fun i =>
      !(isFieldAnonymized s.db cfg obj i)).isEmpty with
  | true =>
    simp only [hempty, eq_self_iff_true, if_true]
    exact ⟨trivial, fun o ho hm hp => by rw [hdb o ho hm hp]⟩
  | false =>
    simp only [hempty, Bool.false_eq_true, if_false]
    cases hbd : buildUpdateDict w cfg (if strTruthy bek then bek else inst)
        obj true (locals.filter fun i =>
          !(isFieldAnonymized s.db cfg obj i)) s.ctr with
    | mk e c1 =>
      cases e with
      | error err =>
        exact ⟨by rfl, fun o ho hm hp => by rw [hdb o ho hm hp]⟩
      | ok d =>
        simp only []
        have hkeys := buildUpdateDict_keys w cfg
          (if strTruthy bek then bek else inst) obj true _ s.ctr d c1 hbd
        have hnof : ∀ p ∈ d, (f == p.1) = false := by
          intro p hp
          have hp1 : p.1 ∈ d.map Prod.fst := List.mem_map_of_mem Prod.fst hp
          rw [hkeys, List.mem_filter] at hp1
          rw [beq_eq_false_iff_ne]
          intro hcontra
          rw [← hcontra, hanon] at hp1
          simp at hp1
        have hauditdata := auditStep_anonymizedData w cfg
          (if strTruthy bek then bek else inst) obj
          (locals.filter fun i => !(isFieldAnonymized s.db cfg obj i)) true
          { s with ctr := c1 }
        have hauditobj := auditStep_objects w cfg
          (if strTruthy bek then bek else inst) obj
          (locals.filter fun i => !(isFieldAnonymized s.db cfg obj i)) true
          { s with ctr := c1 }
        cases haux : (auditStep w cfg (if strTruthy bek then bek else inst)
            obj (locals.filter fun i => !(isFieldAnonymized s.db cfg obj i))
            true { s with ctr := c1 }).2 with
        | some e2 =>
          simp only []
          exact ⟨by rw [hauditdata], fun o ho hm hp => by
            rw [hauditobj] at ho
            rw [hdb o ho hm hp]⟩
        | none =>
          simp only []
          constructor
          · rw [performUpdate_snd_anonymizedData_true, List.filter_append,
              hauditdata]
            have happ : ((d.map (fun p =>
                mkAnonRecord (setAttrList obj d) p.1 legal)).filter
                (fun rec => rec.field == f
                  && rec.contentType == obj.modelName
                  && rec.objectId == toString obj.pk)) = [] := by
              rw [List.filter_eq_nil]
              intro rec hrec
              rw [List.mem_map] at hrec
              obtain ⟨p, hp, hrecp⟩ := hrec
              subst hrecp
              have hne := hnof p hp
              rw [beq_eq_false_iff_ne] at hne
              simp only [mkAnonRecord, Bool.not_eq_true]
              have hp1f : (p.1 == f) = false := by
                rw [beq_eq_false_iff_ne]
                exact fun hc => hne hc.symm
              simp [hp1f]
            rw [happ, List.append_nil]
          · intro o ho hm hp
            rw [performUpdate_snd_objects] at ho
            have ho2 := saveObj_key_mem _ _ o ho
              (by rw [hm, setAttrList_modelName])
              (by rw [hp, setAttrList_pk])
            rw [ho2]
            exact setAttrList_lookup_not_mem f d obj hnof

theorem c2_witness :
    isFieldAnonymized stAnonTest.db cfgRev objTest "email" = true ∧
    (∀ o ∈ stAnonTest.db.objects, o.modelName = objTest.modelName →
      o.pk = objTest.pk → o = objTest) ∧
    ((("email" : String) ∉ (["email", "phone"].filter fun i =>
        !(isFieldAnonymized stAnonTest.db cfgRev objTest i))) ∧
      ((updateObj wTest cfgRev (some "KEY") objTest none
          (Fields.mk cfgRev ["email", "phone"] []) none true
          stAnonTest).st.db.anonymizedData.filter fun rec =>
          rec.field == "email" && rec.contentType == objTest.modelName
            && rec.objectId == toString objTest.pk) =
        (stAnonTest.db.anonymizedData.filter fun rec =>
          rec.field == "email" && rec.contentType == objTest.modelName
            && rec.objectId == toString objTest.pk) ∧
      (∀ o ∈ (updateObj wTest cfgRev (some "KEY") objTest none
          (Fields.mk cfgRev ["email", "phone"] []) none true
          stAnonTest).st.db.objects,
        o.modelName = objTest.modelName → o.pk = objTest.pk →
        lookupAttr o.attrs "email" = lookupAttr objTest.attrs "email")) :=
  ⟨by decide, by decide,
    c2_anonymize_idempotent_per_field wTest cfgRev (some "KEY") objTest none
      cfgRev ["email", "phone"] none stAnonTest "email" (by decide)
      (by decide)⟩

theorem map_mkAnonRecord (obj : Obj) (legal : Option Nat) (o2 : Obj)
    (hm : o2.modelName = obj.modelName) (hp : o2.pk = obj.pk) :
    ∀ d : List (String × String),
    d.map (fun p => mkAnonRecord o2 p.1 legal) =
      d.map (fun p => mkAnonRecord obj p.1 legal) := by
  intro d
  induction d with
  | nil => rfl
  | cons p rest ih =>
    simp only [List.map_cons, ih]
    unfold mkAnonRecord
    rw [hm, hp]

/-- Claim C3: with `anonymization=False` exactly the requested local fields
that are marked anonymized and whose field anonymizer reports reversible for
this object (`deanonSelect`) are transformed — every stored object with the
root's identity equals the object with precisely those fields rewritten —
and for each such field the matching active `AnonymizedData` records are
deleted outright from the store (the final record list is the input list
with them filtered out, so nothing is merely deactivated); with
`anonymization=True` each transformed field gets a newly created active
`AnonymizedData` record carrying the supplied legal reason, appended to the
store. -/
theorem c3_transform_and_record_lifecycle (w : World) (cfg : AnonCfg)
    (obj : Obj) (legal : Option Nat) (a : AnonCfg) (locals : List String)
    (s : St) (b : String) (hne : b ≠ "")
    (hrev : cfg.reversibleAnonymization = true)
    (hdel : cfg.deleteAuditlogFlag = false)
    (hanonlog : cfg.anonymizeAuditlogFlag = false)
    (hfa : ∀ n ∈ locals, cfg.findFieldAnonymizer n ≠ none)
    (hdb : ∀ o ∈ s.db.objects, o.modelName = obj.modelName →
      o.pk = obj.pk → o = obj) :
    ((updateObj w cfg (some b) obj legal (Fields.mk a locals []) none false
        s).err = none ∧
      (updateObj w cfg (some b) obj legal (Fields.mk a locals []) none false
        s).st.db.anonymizedData =
        s.db.anonymizedData.filter (fun rec =>
          !(deanonMatches cfg obj (deanonSelect cfg s.db obj locals) rec)) ∧
      (∀ o ∈ (updateObj w cfg (some b) obj legal (Fields.mk a locals [])
          none false s).st.db.objects,
        o.modelName = obj.modelName → o.pk = obj.pk →
        o = setAttrList obj ((deanonSelect cfg s.db obj locals).map fun n =>
          (n, (getFa cfg n).getValueFromObj obj n
            (w.sha256hex (encryptionKeyPreimage obj.pk b w.secretKey n))
            false)))) ∧
    ((updateObj w cfg (some b) obj legal (Fields.mk a locals []) none true
        s).err = none ∧
      (updateObj w cfg (some b) obj legal (Fields.mk a locals []) none true
        s).st.db.anonymizedData =
        s.db.anonymizedData ++ (locals.filter fun i =>
          !(isFieldAnonymized s.db cfg obj i)).map
            (fun n => mkAnonRecord obj n legal) ∧
      (∀ o ∈ (updateObj w cfg (some b) obj legal (Fields.mk a locals [])
          none true s).st.db.objects,
        o.modelName = obj.modelName → o.pk = obj.pk →
        o = setAttrList obj ((locals.filter fun i =>
            !(isFieldAnonymized s.db cfg obj i)).map fun n =>
          (n, (getFa cfg n).getValueFromObj obj n
            (w.sha256hex (encryptionKeyPreimage obj.pk b w.secretKey n))
            true)))) := by
  constructor
  · have hg : (!false && !cfg.reversibleAnonymization) = false := by
      simp [hrev]
    rw [updateObj_noRelated w cfg (some b) obj legal a locals none false s
      hg]
    have hseleq := selectDeanonFields_eq cfg s.db obj locals
      (fun i hi _ => hfa i hi)
    simp only [Bool.false_eq_true, if_false, hseleq]
    cases hselempty : (deanonSelect cfg s.db obj locals).isEmpty with
    | true =>
      have hsel0 : deanonSelect cfg s.db obj locals = [] := by
        rwa [List.isEmpty_iff] at hselempty
      simp only [hselempty, if_true, hsel0]
      refine ⟨trivial, ?_, ?_⟩
      · show s.db.anonymizedData = _
        have hall : ∀ rec : AnonymizedData,
            (!(deanonMatches cfg obj ([] : List String) rec)) = true := by
          intro rec
          simp [deanonMatches]
        rw [List.filter_eq_self.mpr (fun rec _ => hall rec)]
      · intro o ho hm hp
        show o = setAttrList obj []
        exact hdb o ho hm hp
    | false =>
      have hfasel : ∀ n ∈ deanonSelect cfg s.db obj locals,
          cfg.findFieldAnonymizer n ≠ none := by
        intro n hn
        exact hfa n (List.mem_filter.mp hn).1
      have hbd := buildUpdateDict_ok w cfg obj false b hrev hne
        (deanonSelect cfg s.db obj locals) s.ctr hfasel
      have hbekkey : (if strTruthy (none : Option String) then
          (none : Option String) else some b) = some b := rfl
      simp only [hselempty, Bool.false_eq_true, if_false, hbekkey, hbd]
      have hstep : auditStep w cfg (some b) obj
          (deanonSelect cfg s.db obj locals) false { s with ctr := s.ctr } =
          ({ s with ctr := s.ctr }, none) := by
        simp [auditStep, hdel, hanonlog]
      simp only [hstep]
      refine ⟨trivial, ?_, ?_⟩
      · rw [performUpdate_snd_anonymizedData_false]
        show s.db.anonymizedData.filter _ = s.db.anonymizedData.filter _
        apply List.filter_congr
        intro r _
        rw [deanonMatches_setAttrList]
        have hmapfst : (((deanonSelect cfg s.db obj locals).map fun n =>
            (n, (getFa cfg n).getValueFromObj obj n
              (w.sha256hex (encryptionKeyPreimage obj.pk b w.secretKey n))
              false)).map Prod.fst) = deanonSelect cfg s.db obj locals := by
          rw [List.map_map]
          exact List.map_id _
        rw [hmapfst]
      · intro o ho hm hp
        rw [performUpdate_snd_objects] at ho
        exact saveObj_key_mem _ _ o ho (by rw [hm, setAttrList_modelName])
          (by rw [hp, setAttrList_pk])
  · rw [updateObj_noRelated w cfg (some b) obj legal a locals none true s
      (by simp)]
    simp only [eq_self_iff_true, if_true]
    cases hselempty : (locals.filter fun i =>
        !(isFieldAnonymized s.db cfg obj i)).isEmpty with
    | true =>
      have hsel0 : (locals.filter fun i =>
          !(isFieldAnonymized s.db cfg obj i)) = [] := by
        rwa [List.isEmpty_iff] at hselempty
      simp only [hselempty, eq_self_iff_true, if_true, hsel0]
      refine ⟨trivial, ?_, ?_⟩
      · show s.db.anonymizedData = _
        simp
      · intro o ho hm hp
        show o = setAttrList obj []
        exact hdb o ho hm hp
    | false =>
      have hfasel : ∀ n ∈ (locals.filter fun i =>
          !(isFieldAnonymized s.db cfg obj i)),
          cfg.findFieldAnonymizer n ≠ none := by
        intro n hn
        exact hfa n (List.mem_filter.mp hn).1
      have hbd := buildUpdateDict_ok w cfg obj true b hrev hne
        (locals.filter fun i => !(isFieldAnonymized s.db cfg obj i)) s.ctr
        hfasel
      have hbekkey : (if strTruthy (none : Option String) then
          (none : Option String) else some b) = some b := rfl
      simp only [hselempty, Bool.false_eq_true, if_false, hbekkey, hbd]
      have hstep : auditStep w cfg (some b) obj
          (locals.filter fun i => !(isFieldAnonymized s.db cfg obj i)) true
          { s with ctr := s.ctr } = ({ s with ctr := s.ctr }, none) := by
        simp [auditStep, hdel, hanonlog]
      simp only [hstep]
      refine ⟨trivial, ?_, ?_⟩
      · rw [performUpdate_snd_anonymizedData_true,
          map_mkAnonRecord obj legal _ (setAttrList_modelName _ _)
            (setAttrList_pk _ _), List.map_map]
        rfl
      · intro o ho hm hp
        rw [performUpdate_snd_objects] at ho
        exact saveObj_key_mem _ _ o ho (by rw [hm, setAttrList_modelName])
          (by rw [hp, setAttrList_pk])

theorem c3_witness :
    ("KEY" : String) ≠ "" ∧
    cfgRev.reversibleAnonymization = true ∧
    cfgRev.deleteAuditlogFlag = false ∧
    cfgRev.anonymizeAuditlogFlag = false ∧
    (∀ n ∈ ["email"], cfgRev.findFieldAnonymizer n ≠ none) ∧
    (∀ o ∈ stAnonTest.db.objects, o.modelName = objTest.modelName →
      o.pk = objTest.pk → o = objTest) ∧
    ((updateObj wTest cfgRev (some "KEY") objTest none
        (Fields.mk cfgRev ["email"] []) none false stAnonTest).err = none ∧
      (updateObj wTest cfgRev (some "KEY") objTest none
        (Fields.mk cfgRev ["email"] []) none false
        stAnonTest).st.db.anonymizedData =
        stAnonTest.db.anonymizedData.filter (fun rec =>
          !(deanonMatches cfgRev objTest
            (deanonSelect cfgRev stAnonTest.db objTest ["email"]) rec))) := by
  have hfaw : ∀ n ∈ ["email"], cfgRev.findFieldAnonymizer n ≠ none := by
    intro n hn
    have hn2 : n = "email" := by simpa using hn
    subst hn2
    intro hc
    rw [show cfgRev.findFieldAnonymizer "email" = some faTest from rfl] at hc
    exact Option.noConfusion hc
  have h := c3_transform_and_record_lifecycle wTest cfgRev objTest none
    cfgRev ["email"] stAnonTest "KEY" (by decide) rfl rfl rfl hfaw
    (by decide)
  exact ⟨by decide, rfl, rfl, rfl, hfaw, by decide, h.1.1, h.1.2.1⟩

theorem sorted_take_getLast_filter_drop :
    ∀ (R : List Nat) (c : Nat) (last : Nat),
    List.Pairwise (· < ·) R → 1 ≤ c →
    (R.take c).getLast? = some last →
    R.filter (fun p => decide (last < p)) = R.drop c := by
  intro R
  induction R with
  | nil =>
    intro c last _ _ h
    simp at h
  | cons r rs ih =>
    intro c last hsort hc hlast
    obtain ⟨c2, rfl⟩ : ∃ c2, c = c2 + 1 := ⟨c - 1, by omega⟩
    rw [List.take_succ_cons] at hlast
    by_cases hc0 : c2 = 0
    · subst hc0
      simp only [List.take_zero, List.getLast?_singleton, Option.some.injEq]
        at hlast
      subst hlast
      rw [List.drop_succ_cons, List.drop_zero, List.filter_cons]
      have h1 : (decide (r < r)) = false := by simp
      rw [h1]
      simp only [Bool.false_eq_true, if_false]
      exact List.filter_eq_self.mpr (fun a ha => by
        simpa using (List.pairwise_cons.mp hsort).1 a ha)
    · by_cases hrs : rs = []
      · subst hrs
        simp only [List.take_nil, List.getLast?_singleton, Option.some.injEq]
          at hlast
        subst hlast
        rw [List.drop_succ_cons, List.drop_nil, List.filter_cons]
        simp
      · have htake : rs.take c2 ≠ [] := by
          rw [Ne, List.take_eq_nil_iff]
          push_neg
          exact ⟨hc0, hrs⟩
        obtain ⟨x, xs, hxx⟩ := List.exists_cons_of_ne_nil htake
        rw [hxx, List.getLast?_cons_cons, ← hxx] at hlast
        have hmem : last ∈ rs :=
          List.take_subset c2 rs (List.mem_of_getLast?_eq_some hlast)
        have hrlast : r < last := (List.pairwise_cons.mp hsort).1 last hmem
        rw [List.drop_succ_cons, List.filter_cons]
        simp only [show decide (last < r) = false by
          simp [Nat.not_lt.mpr (Nat.le_of_lt hrlast)], Bool.false_eq_true,
          if_false]
        exact ih c2 last (List.pairwise_cons.mp hsort).2
          (by omega) hlast

theorem filter_lt_filter_lt (pks : List Nat) (l last : Nat) (h : l < last) :
    (pks.filter (fun p => decide (l < p))).filter
      (fun p => decide (last < p)) =
      pks.filter (fun p => decide (last < p)) := by
  rw [List.filter_filter]
  apply List.filter_congr
  intro p _
  by_cases hp : last < p
  · have hl : l < p := lt_trans h hp
    simp [hp, hl]
  · simp [hp]

/-- Invariant of the non-delete `while queryset.exists()` loop: starting from
a truthy `last_pk` bookmark whose remaining set is `R`, the yielded batches
concatenate to exactly `R` and each batch respects the chunk size. -/
theorem chunkedLoop_join (pks : List Nat) (c : Nat) (hc : 1 ≤ c)
    (hsort : List.Pairwise (· < ·) pks) (hpos : ∀ p ∈ pks, 0 < p) :
    ∀ (fuel : Nat) (lp : Option Nat) (R : List Nat),
    (match lp with
     | none => pks = R
     | some l => 0 < l ∧ pks.filter (fun p => decide (l < p)) = R) →
    R.length < fuel →
    (chunkedLoop pks c lp fuel).flatten = R ∧
      ∀ b ∈ chunkedLoop pks c lp fuel, b.length ≤ c := by
  intro fuel
  induction fuel with
  | zero =>
    intro lp R hR hlen
    omega
  | succ f ih =>
    intro lp R hR hlen
    have hRsub : List.Sublist R pks := by
      cases lp with
      | none => rw [show pks = R from hR]
      | some l => rw [← hR.2]; exact List.filter_sublist pks
    have hRsort : List.Pairwise (· < ·) R := hsort.sublist hRsub
    rw [chunkedLoop]
    cases hpe : pks.isEmpty with
    | true =>
      have hpk0 : pks = [] := List.isEmpty_iff.mp hpe
      have hR0 : R = [] := by
        cases lp with
        | none => rw [← hR, hpk0]
        | some l => rw [← hR.2, hpk0]; rfl
      simp [hpe, hR0]
    | false =>
      simp only [hpe, Bool.false_eq_true, if_false]
      have hbatch : chunkedBatch pks c lp = R.take c := by
        unfold chunkedBatch
        cases lp with
        | none => rw [show pks = R from hR]
        | some l =>
          have hl0 : l ≠ 0 := by omega
          simp only [hl0, ne_eq, not_false_iff, if_true]
          rw [hR.2]
      rw [hbatch]
      cases hgl : (R.take c).getLast? with
      | none =>
        rw [List.getLast?_eq_none_iff, List.take_eq_nil_iff] at hgl
        have hR0 : R = [] := by
          cases hgl with
          | inl h0 => omega
          | inr h0 => exact h0
        simp [hR0]
      | some last =>
        have hmemR : last ∈ R :=
          List.take_subset c R (List.mem_of_getLast?_eq_some hgl)
        have hlast_pos : 0 < last := hpos last (hRsub.subset hmemR)
        have hfilter_pks : pks.filter (fun p => decide (last < p)) =
            R.drop c := by
          have hdrop := sorted_take_getLast_filter_drop R c last hRsort hc
            hgl
          cases lp with
          | none => rw [show pks = R from hR]; exact hdrop
          | some l =>
            have hllast : l < last := by
              have hmemf := hR.2 ▸ hmemR
              rw [List.mem_filter] at hmemf
              simpa using hmemf.2
            rw [← filter_lt_filter_lt pks l last hllast, hR.2]
            exact hdrop
        have htake_ne : R.take c ≠ [] := by
          intro h0
          rw [h0] at hgl
          simp at hgl
        have hRne : R ≠ [] := by
          intro h0
          rw [h0] at htake_ne
          simp at htake_ne
        have hlen2 : (R.drop c).length < f := by
          rw [List.length_drop]
          have hRlen : 1 ≤ R.length := List.length_pos.mpr hRne
          omega
        obtain ⟨ihj, ihb⟩ := ih (some last) (R.drop c)
          ⟨hlast_pos, hfilter_pks⟩ hlen2
        constructor
        · rw [List.flatten_cons, ihj, List.take_append_drop]
        · intro b hb
          rw [List.mem_cons] at hb
          cases hb with
          | inl h0 => rw [h0]; exact List.length_take_le c R
          | inr h0 => exact ihb b h0

/-- Claim C9 (amended): for a queryset whose primary keys are all nonzero
(given in ascending order) and a positive chunk size, the batches yielded by
`chunked_queryset_iterator` in non-delete mode concatenate to exactly the
input set (coverage with no overlap), each batch holds at most `chunk_size`
objects, each batch is ordered by primary key, and every element of a later
batch is strictly greater than every element of an earlier one.  (The claim's
unconditional version fails for a primary key equal to 0, which the loop's
`if last_pk:` truthiness test treats as "no bookmark".) -/
theorem c9_chunked_iterator_batches (pks : List Nat) (c : Nat)
    (hsort : List.Pairwise (· < ·) pks) (hpos : ∀ p ∈ pks, 0 < p)
    (hc : 1 ≤ c) :
    (chunkedQuerysetIterator pks c).flatten = pks ∧
    (∀ b ∈ chunkedQuerysetIterator pks c, b.length ≤ c) ∧
    List.Pairwise (fun b1 b2 => ∀ x ∈ b1, ∀ y ∈ b2, x < y)
      (chunkedQuerysetIterator pks c) ∧
    (∀ b ∈ chunkedQuerysetIterator pks c, List.Pairwise (· < ·) b) := by
  have h := chunkedLoop_join pks c hc hsort hpos (pks.length + 1) none pks
    rfl (by omega)
  have hiter : chunkedQuerysetIterator pks c =
      chunkedLoop pks c none (pks.length + 1) := rfl
  have hflat : (chunkedQuerysetIterator pks c).flatten = pks := by
    rw [hiter]
    exact h.1
  have hpj := List.pairwise_flatten.mp (show List.Pairwise (· < ·)
    (chunkedQuerysetIterator pks c).flatten by rw [hflat]; exact hsort)
  exact ⟨hflat, fun b hb => h.2 b (hiter ▸ hb), hpj.2, hpj.1⟩

theorem c9_witness :
    List.Pairwise (· < ·) [1, 2, 3] ∧ (∀ p ∈ [1, 2, 3], 0 < p) ∧ 1 ≤ 2 ∧
    ((chunkedQuerysetIterator [1, 2, 3] 2).flatten = [1, 2, 3] ∧
      (∀ b ∈ chunkedQuerysetIterator [1, 2, 3] 2, b.length ≤ 2) ∧
      List.Pairwise (fun b1 b2 => ∀ x ∈ b1, ∀ y ∈ b2, x < y)
        (chunkedQuerysetIterator [1, 2, 3] 2) ∧
      (∀ b ∈ chunkedQuerysetIterator [1, 2, 3] 2,
        List.Pairwise (· < ·) b)) :=
  ⟨by decide, by decide, by decide,
    c9_chunked_iterator_batches [1, 2, 3] 2 (by decide) (by decide)
      (by decide)⟩

/-- Claim C9 counterexample: with primary keys `[0, 1]` and chunk size 1 the
loop's `if last_pk:` test treats the bookmark 0 as absent, so the iterator
yields the batch `[0]` again and again — the yielded batches are not
pairwise disjoint and never cover primary key 1. -/
theorem c9_counterexample :
    chunkedQuerysetIterator [0, 1] 1 = [[0], [0], [0]] ∧
    ¬ List.Pairwise (fun b1 b2 => ∀ x ∈ b1, ∀ y ∈ b2, x < y)
      (chunkedQuerysetIterator [0, 1] 1) ∧
    (1 : Nat) ∈ [0, 1] ∧
    (1 : Nat) ∉ (chunkedQuerysetIterator [0, 1] 1).flatten := by
  refine ⟨by decide, ?_, by decide, by decide⟩
  intro h
  rw [show chunkedQuerysetIterator [0, 1] 1 = [[0], [0], [0]] by decide] at h
  have h1 := (List.pairwise_cons.mp h).1 [0] (by decide) 0 (by decide) 0
    (by decide)
  exact absurd h1 (by decide)
